import Mathlib

/-!
Verification of the Trademark Record Extraction and Similarity Engine
(backend of the TrademarkAI application).

The definitions below are a shallow embedding of the JavaScript source:

* `SimilarityService` (src/backend/src/services/similarityService.js):
  text normalization, Levenshtein distance, Jaro and Jaro-Winkler
  similarity, longest common substring, phonetic codes, cosine
  similarity, the three analysis passes, score fusion, and the
  Top-K / threshold pipeline of `analyzeSimilarity`.
* `VectorService.generateEmbedding`: the embedding wrapper with its
  catch-all fallback vector.
* `TrademarkParserService`: record deduplication and the enhanced /
  traditional parsing escalation.
* `TrademarkData` (src/backend/src/types/trademarkTypes.js, listed in
  src/backend/README.md): the record constructor and validation.
* `SimilarityController.updateThresholds`: the partial threshold merge.
* `DocumentService.splitIntoChunks`: the overlapping chunker.

Numbers are modelled with `ℚ` (idealized exact arithmetic for the
JavaScript floats), strings with `List Char`.  `Math.sqrt` and the
external embedding provider are abstracted as parameters; theorems
quantify over them.
-/

namespace TrademarkAI

/-- JavaScript whitespace characters relevant to the `\s` regex class and
`String.prototype.trim` (space, tab, line feed, carriage return,
vertical tab, form feed).  Wider unicode space classes are outside the
character data handled by this backend. -/
def isJsWs (c : Char) : Bool :=
  c = ' ' ∨ c = '\t' ∨ c = '\n' ∨ c = '\r' ∨ c = '\x0b' ∨ c = '\x0c'

/-- Model of `text.trim()`: drop JavaScript whitespace from both ends. -/
def jsTrim (s : List Char) : List Char :=
  ((s.dropWhile isJsWs).reverse.dropWhile isJsWs).reverse

/-- Walk of the replacement `/\s+/g -> ' '`: the flag records whether
the scan stands inside a whitespace run whose first character has
already been emitted as the single replacement space. -/
def collapseWsGo : Bool → List Char → List Char
  | _, [] => []
  | inRun, c :: rest =>
    if isJsWs c then
      if inRun then collapseWsGo true rest else ' ' :: collapseWsGo true rest
    else c :: collapseWsGo false rest

/-- Model of the replacement `/\s+/g -> ' '`: collapse every maximal run
of whitespace characters into a single space. -/
def collapseWs (s : List Char) : List Char :=
  collapseWsGo false s

/-- Characters kept by the replacement `/[^a-z0-9\s]/g -> ''`. -/
def keepNormChar (c : Char) : Bool :=
  ('a' ≤ c ∧ c ≤ 'z') ∨ ('0' ≤ c ∧ c ≤ '9') ∨ isJsWs c

/-- Source: `SimilarityService.normalizeText`.  Lowercase, strip every
character outside `[a-z0-9\s]`, collapse whitespace runs, trim.
`Char.toLower` models `String.prototype.toLowerCase` (they agree on the
ASCII data this backend processes). -/
def normalizeText (s : List Char) : List Char :=
  jsTrim (collapseWs ((s.map Char.toLower).filter keepNormChar))

/-! ## Levenshtein distance

`SimilarityService.levenshteinDistance` fills the classic dynamic
programming matrix with `matrix[i][j]` holding the edit distance between
the length-`i` prefix of `str2` and the length-`j` prefix of `str1`,
and returns `matrix[str2.length][str1.length]`.  The row-by-row
computation is embedded directly (`levRowGo` is one execution of the
inner `j` loop, the fold over `s2` is the outer `i` loop); `levRec` is
the same recurrence in structural form, used by the proofs and related
to the matrix computation by `levenshteinDistance_eq_levRec`. -/

/-- Structural form of the recurrence filled into the matrix by
`levenshteinDistance`: equal heads take the diagonal entry, otherwise
one plus the minimum of the diagonal, left and upper entries. -/
def levRec : List Char → List Char → Nat
  | [], ys => ys.length
  | xs, [] => xs.length
  | x :: xs, y :: ys =>
    if x = y then levRec xs ys
    else 1 + min (levRec xs ys) (min (levRec (x :: xs) ys) (levRec xs (y :: ys)))
  termination_by xs ys => xs.length + ys.length
  decreasing_by all_goals simp_arith

/-- Inner `j` loop of `levenshteinDistance`: given the character `c` of
`str2` for this row, the remaining characters of `str1`, the remaining
part of the previous row (starting at the diagonal entry `prev[j-1]`),
and the entry `cur[j-1]` just computed, produce the entries
`cur[j], cur[j+1], ...` of the current row. -/
def levRowGo (c : Char) : List Char → List Nat → Nat → List Nat
  | [], _, _ => []
  | _ :: _, [], _ => []
  | x :: xs, pdiag :: prest, curPrev =>
    let pUp := prest.headD 0
    let cur := if x = c then pdiag else 1 + min pdiag (min curPrev pUp)
    cur :: levRowGo c xs prest cur

/-- Source: `SimilarityService.levenshteinDistance`.  Row `0` is
`[0, 1, ..., str1.length]`; each following row starts with its row
index and is completed by `levRowGo`; the result is the last entry of
the last row. -/
def levenshteinDistance (s1 s2 : List Char) : Nat :=
  let final := s2.foldl
    (fun (acc : List Nat × Nat) c =>
      let i := acc.2 + 1
      (i :: levRowGo c s1 acc.1 i, i))
    (List.range (s1.length + 1), 0)
  final.1.getLastD 0

/-- Source: `SimilarityService.calculateLevenshteinSimilarity`. -/
def calculateLevenshteinSimilarity (s1 s2 : List Char) : ℚ :=
  let maxLength := max s1.length s2.length
  if maxLength = 0 then 1 else 1 - (levenshteinDistance s1 s2 : ℚ) / maxLength

/-! ## Jaro and Jaro-Winkler similarity -/

/-- Match window of `SimilarityService.jaroSimilarity`:
`Math.floor(max(len1, len2) / 2) - 1`, which is `-1` when the longer
string has length at most one. -/
def jaroMatchWindow (len1 len2 : Nat) : Int :=
  ((max len1 len2 : Nat) : Int) / 2 - 1

/-- Lower end `Math.max(0, i - matchWindow)` of the scan window. -/
def jaroStart (i : Nat) (mw : Int) : Nat :=
  (max 0 ((i : Int) - mw)).toNat

/-- Upper end `Math.min(i + matchWindow + 1, str2.length)` of the scan
window (exclusive). -/
def jaroStop (i : Nat) (mw : Int) (len2 : Nat) : Nat :=
  (min ((i : Int) + mw + 1) (len2 : Int)).toNat

/-- Inner `j` loop of the matching phase: the first index `j` of the
window `[start, stop)` whose flag in `m2` is still false and whose
character equals `c`. -/
def findMatchJ (c : Char) (s2 : List Char) (m2 : Nat → Bool) (start stop : Nat) :
    Option Nat :=
  (List.range' start (stop - start)).find? (fun j => !m2 j && s2.getD j ' ' = c)

/-- State of the matching phase: the two boolean flag arrays
`str1Matches` / `str2Matches` (as membership functions) and the
`matches` counter. -/
structure JaroState where
  m1 : Nat → Bool
  m2 : Nat → Bool
  matchCount : Nat

/-- One iteration of the outer `i` loop of the matching phase. -/
def jaroStep (s1 s2 : List Char) (mw : Int) (st : JaroState) (i : Nat) : JaroState :=
  match findMatchJ (s1.getD i ' ') s2 st.m2 (jaroStart i mw) (jaroStop i mw s2.length) with
  | none => st
  | some j =>
    { m1 := fun p => if p = i then true else st.m1 p
      m2 := fun q => if q = j then true else st.m2 q
      matchCount := st.matchCount + 1 }

/-- Matching phase of `jaroSimilarity`: fold the step over
`i = 0, ..., str1.length - 1` starting from all-false flags. -/
def jaroMatch (s1 s2 : List Char) (mw : Int) : JaroState :=
  (List.range s1.length).foldl (jaroStep s1 s2 mw) ⟨fun _ => false, fun _ => false, 0⟩

/-- Characters of `s` whose index is flagged in `m`, in index order. -/
def matchedChars (s : List Char) (m : Nat → Bool) : List Char :=
  ((List.range s.length).filter m).map (fun i => s.getD i ' ')

/-- Number of positions where the two lists differ (zipped pairwise).
The transposition loop of `jaroSimilarity` walks the two flag arrays in
parallel and counts exactly the positions at which the `n`-th flagged
character of `str1` differs from the `n`-th flagged character of
`str2`; since both arrays carry the same number of flags, that walk
computes this count. -/
def countMismatches (a b : List Char) : Nat :=
  ((a.zip b).filter (fun p => p.1 ≠ p.2)).length

/-- Source: `SimilarityService.jaroSimilarity`. -/
def jaroSimilarity (s1 s2 : List Char) : ℚ :=
  if s1.length = 0 ∧ s2.length = 0 then 1
  else if s1.length = 0 ∨ s2.length = 0 then 0
  else
    let mw := jaroMatchWindow s1.length s2.length
    let st := jaroMatch s1 s2 mw
    if st.matchCount = 0 then 0
    else
      let t : ℚ := countMismatches (matchedChars s1 st.m1) (matchedChars s2 st.m2)
      ((st.matchCount : ℚ) / s1.length + (st.matchCount : ℚ) / s2.length
        + ((st.matchCount : ℚ) - t / 2) / st.matchCount) / 3

/-- Common prefix length counted by `calculateJaroWinklerSimilarity`:
positions `0 ≤ i < min(len1, len2, 4)` scanned in order, stopping at
the first mismatch. -/
def commonPrefixLen : List Char → List Char → Nat → Nat
  | c1 :: r1, c2 :: r2, lim + 1 => if c1 = c2 then 1 + commonPrefixLen r1 r2 lim else 0
  | _, _, _ => 0

/-- Source: `SimilarityService.calculateJaroWinklerSimilarity`.  The
prefix bonus applies only when the Jaro similarity is at least `0.7`. -/
def calculateJaroWinklerSimilarity (s1 s2 : List Char) : ℚ :=
  let jaroSim := jaroSimilarity s1 s2
  if jaroSim < 7 / 10 then jaroSim
  else jaroSim + (1 / 10) * (commonPrefixLen s1 s2 4 : ℚ) * (1 - jaroSim)

/-! ## Longest common substring -/

/-- Length of the common run scanned by the inner `while` loop of
`longestCommonSubstring`, starting at the heads of the two suffixes. -/
def commonRunLen : List Char → List Char → Nat
  | a :: as, b :: bs => if a = b then commonRunLen as bs + 1 else 0
  | _, _ => 0

/-- Source: `SimilarityService.longestCommonSubstring`.  Nested loops
over all start positions `(i, j)`; a longer common run strictly beats
the current candidate (ties keep the first). -/
def longestCommonSubstring (s1 s2 : List Char) : List Char :=
  ((List.range s1.length).flatMap (fun i => (List.range s2.length).map (fun j => (i, j)))).foldl
    (fun longest p =>
      let k := commonRunLen (s1.drop p.1) (s2.drop p.2)
      if k > longest.length then (s1.drop p.1).take k else longest)
    []

/-- Source: `SimilarityService.calculateSubstringSimilarity`. -/
def calculateSubstringSimilarity (s1 s2 : List Char) : ℚ :=
  let longer := if s1.length > s2.length then s1 else s2
  if longer.length = 0 then 1
  else (longestCommonSubstring s1 s2).length / (longer.length : ℚ)

/-- Combined lexical score computed inside
`SimilarityService.analyzeTextSimilarity` (line 156):
`0.4 * levenshtein + 0.4 * jaroWinkler + 0.2 * substring` over already
normalized strings. -/
def textScoreOf (a b : List Char) : ℚ :=
  calculateLevenshteinSimilarity a b * (4 / 10)
    + calculateJaroWinklerSimilarity a b * (4 / 10)
    + calculateSubstringSimilarity a b * (2 / 10)

/-- Combined lexical score of two raw strings: both sides are first
passed through `normalizeText`, exactly as `analyzeTextSimilarity`
normalizes the target and each trademark name. -/
def lexicalScore (a b : List Char) : ℚ :=
  textScoreOf (normalizeText a) (normalizeText b)

/-! ## Phonetic code -/

/-- Per-character substitution of `generatePhoneticCode`: the JavaScript
`phoneticMap` sends a character to a replacement string (so `x` becomes
two characters) and leaves unmapped characters unchanged. -/
def phoneticMapChar (c : Char) : List Char :=
  if c = 'c' then ['k']
  else if c = 'q' then ['k']
  else if c = 'x' then ['k', 's']
  else if c = 'f' then ['p']
  else if c = 'v' then ['p']
  else if c = 'j' then ['y']
  else if c = 'z' then ['s']
  else [c]

/-- Walk of the replacement `/(.)\1+/g -> '$1'` after the first
character of a run has been emitted: drop repeats of the previous
character. -/
def dedupAdjacentGo : Char → List Char → List Char
  | _, [] => []
  | prev, c :: rest =>
    if c = prev then dedupAdjacentGo prev rest else c :: dedupAdjacentGo c rest

/-- Model of the replacement `/(.)\1+/g -> '$1'`: collapse consecutive
duplicate characters.  The input never contains a line feed (it has
been normalized), so the `.` class covers every character present. -/
def dedupAdjacent : List Char → List Char
  | [] => []
  | c :: rest => c :: dedupAdjacentGo c rest

/-- Source: `SimilarityService.generatePhoneticCode`. -/
def generatePhoneticCode (s : List Char) : List Char :=
  dedupAdjacent ((normalizeText s).flatMap phoneticMapChar)

/-- Source: `SimilarityService.calculatePhoneticSimilarity` — the
Levenshtein similarity of the two phonetic codes. -/
def calculatePhoneticSimilarity (p1 p2 : List Char) : ℚ :=
  calculateLevenshteinSimilarity p1 p2

/-! ## Cosine similarity and embeddings -/

/-- Source: `SimilarityService.calculateCosineSimilarity`.  Vectors of
unequal length throw (`Except.error`); otherwise the score is
`dot / (sqrt(norm1) * sqrt(norm2))`.  `Math.sqrt` is abstracted as the
parameter `sqrtQ`; no theorem below depends on its values. -/
def calculateCosineSimilarity (sqrtQ : ℚ → ℚ) (v1 v2 : List ℚ) : Except String ℚ :=
  if v1.length ≠ v2.length then .error "Vectors must have the same length"
  else
    let dotProduct := ((v1.zip v2).map (fun p => p.1 * p.2)).sum
    let norm1 := (v1.map (fun x => x * x)).sum
    let norm2 := (v2.map (fun x => x * x)).sum
    .ok (dotProduct / (sqrtQ norm1 * sqrtQ norm2))

/-- Outcome of one call to the external embedding provider (the OpenAI
client): the embedding vector, or the thrown error. -/
def EmbeddingProvider : Type := List Char → Except String (List ℚ)

/-- Fallback vector built in the `catch` branch of `generateEmbedding`:
`new Array(1536).fill(0).map(() => Math.random() * 0.001)`.  The random
source is abstracted as the parameter `rand`. -/
def fallbackRandomVector (rand : ℕ → ℚ) : List ℚ :=
  (List.range 1536).map (fun i => rand i * (1 / 1000))

namespace VectorService

/-- Truncation applied before the provider call:
`text.length > maxLength ? text.substring(0, 8000) : text`. -/
def truncateForEmbedding (text : List Char) : List Char :=
  if text.length > 8000 then text.take 8000 else text

/-- Source: `VectorService.generateEmbedding` (similarityService.js
lines 1082-1130).  The provider call is wrapped in `try`/`catch`; on
any provider error the function logs and returns the random fallback
vector instead of rethrowing. -/
def generateEmbedding (provider : EmbeddingProvider) (rand : ℕ → ℚ)
    (text : List Char) : List ℚ :=
  match provider (truncateForEmbedding text) with
  | .ok v => v
  | .error _ => fallbackRandomVector rand

end VectorService

/-! ## Threshold configuration -/

/-- Source: `SimilarityService.constructor` — the four mutable
similarity thresholds. -/
structure Thresholds where
  textSimilarity : ℚ
  phoneticSimilarity : ℚ
  semanticSimilarity : ℚ
  overallSimilarity : ℚ
  deriving Repr, DecidableEq

/-- Initial values set by the constructor. -/
def defaultThresholds : Thresholds :=
  { textSimilarity := 7 / 10
    phoneticSimilarity := 8 / 10
    semanticSimilarity := 6 / 10
    overallSimilarity := 3 / 10 }

/-- Body of a validated threshold update request: each of the four keys
may be present or absent (the Joi schema of
`SimilarityController.updateThresholds` marks all four optional and
rejects unknown keys). -/
structure ThresholdPatch where
  textSimilarity : Option ℚ := none
  phoneticSimilarity : Option ℚ := none
  semanticSimilarity : Option ℚ := none
  overallSimilarity : Option ℚ := none
  deriving Repr, DecidableEq

/-- Source: `SimilarityController.updateThresholds` — the statement
`Object.assign(similarityService.thresholds, thresholds)`: each own
property of the patch overwrites the corresponding field, in key
order; absent keys leave the field untouched. -/
def updateThresholds (cur : Thresholds) (patch : ThresholdPatch) : Thresholds :=
  let c1 := match patch.textSimilarity with
    | some v => { cur with textSimilarity := v }
    | none => cur
  let c2 := match patch.phoneticSimilarity with
    | some v => { c1 with phoneticSimilarity := v }
    | none => c1
  let c3 := match patch.semanticSimilarity with
    | some v => { c2 with semanticSimilarity := v }
    | none => c2
  match patch.overallSimilarity with
  | some v => { c3 with overallSimilarity := v }
  | none => c3

/-! ## Corpus items and the three analysis passes

A corpus item models one parsed trademark object as handed to
`analyzeSimilarity` by `getAllTrademarks` (the external vector store
and `parseSearchResults` supply these; date filtering happens inside
`getAllTrademarks`, before this boundary).  Only the properties read by
the engine appear.  JavaScript `undefined` and `''` behave identically
in every `||` chain and truthiness test the engine applies to these
fields, so both are modelled as the empty string. -/

structure CorpusItem where
  namaMerek : String := ""
  namaReferensiLabelMerek : String := ""
  extractedText : String := ""
  uraianBarangJasa : String := ""
  /-- the optional chain `trademark.trademarkData?.uraianBarangJasa` -/
  tdUraianBarangJasa : String := ""
  nomorPermohonan : String := ""
  id : String := ""
  sourceDocument : String := ""
  tanggalPenerimaan : String := ""
  deriving Repr, DecidableEq, Inhabited

/-- Fallback chain of `analyzeTextSimilarity` (lines 129-132):
`namaMerek || namaReferensiLabelMerek ||
(extractedText ? extractedText.split(' ')[0] : '') || ''`. -/
def trademarkNameOf (tm : CorpusItem) : String :=
  if tm.namaMerek ≠ "" then tm.namaMerek
  else if tm.namaReferensiLabelMerek ≠ "" then tm.namaReferensiLabelMerek
  else if tm.extractedText ≠ "" then (tm.extractedText.splitOn " ").headD ""
  else ""

/-- Per-candidate score record stored by the text pass. -/
structure TextSim where
  overall : ℚ
  levenshtein : ℚ
  jaroWinkler : ℚ
  substring : ℚ
  deriving Repr, DecidableEq

/-- One entry of the text pass result list. -/
structure TextResult where
  trademark : CorpusItem
  textSimilarity : TextSim
  deriving Repr, DecidableEq

/-- Source: `SimilarityService.analyzeTextSimilarity`.  Candidates are
kept exactly when the combined score reaches the text threshold. -/
def analyzeTextSimilarity (thr : Thresholds) (target : String)
    (trademarks : List CorpusItem) : List TextResult :=
  let targetNormalized := normalizeText target.toList
  trademarks.filterMap (fun tm =>
    let normalizedTrademark := normalizeText (trademarkNameOf tm).toList
    let levenshteinScore := calculateLevenshteinSimilarity targetNormalized normalizedTrademark
    let jaroWinklerScore := calculateJaroWinklerSimilarity targetNormalized normalizedTrademark
    let substringScore := calculateSubstringSimilarity targetNormalized normalizedTrademark
    let textScore := levenshteinScore * (4 / 10) + jaroWinklerScore * (4 / 10)
      + substringScore * (2 / 10)
    if textScore ≥ thr.textSimilarity then
      some ⟨tm, ⟨textScore, levenshteinScore, jaroWinklerScore, substringScore⟩⟩
    else none)

/-- Per-candidate record stored by the description (semantic) pass. -/
structure DescSim where
  semantic : ℚ
  description : String
  deriving Repr, DecidableEq

/-- One entry of the description pass result list. -/
structure DescResult where
  trademark : CorpusItem
  descriptionSimilarity : DescSim
  deriving Repr, DecidableEq

/-- Description fallback chain (lines 198-200):
`uraianBarangJasa || trademarkData?.uraianBarangJasa || ''`. -/
def descriptionOf (tm : CorpusItem) : String :=
  if tm.uraianBarangJasa ≠ "" then tm.uraianBarangJasa
  else if tm.tdUraianBarangJasa ≠ "" then tm.tdUraianBarangJasa
  else ""

/-- Stored snippet `description.substring(0, 200) + '...'`. -/
def descSnippet (s : String) : String :=
  String.mk (s.toList.take 200) ++ "..."

/-- Loop body of `analyzeDescriptionSimilarity`: candidates with an
empty (all-whitespace) description are skipped entirely; otherwise the
description is embedded and scored against the target embedding, and a
dimension mismatch inside `calculateCosineSimilarity` propagates. -/
def descLoop (sqrtQ : ℚ → ℚ) (genEmb : List Char → List ℚ) (thr : Thresholds)
    (targetEmbedding : List ℚ) : List CorpusItem → Except String (List DescResult)
  | [] => .ok []
  | tm :: rest =>
    let description := descriptionOf tm
    if jsTrim description.toList ≠ [] then
      match calculateCosineSimilarity sqrtQ targetEmbedding (genEmb description.toList) with
      | .error e => .error e
      | .ok semanticScore =>
        match descLoop sqrtQ genEmb thr targetEmbedding rest with
        | .error e => .error e
        | .ok tail =>
          .ok (if semanticScore ≥ thr.semanticSimilarity then
            ⟨tm, ⟨semanticScore, descSnippet description⟩⟩ :: tail
          else tail)
    else descLoop sqrtQ genEmb thr targetEmbedding rest

/-- Source: `SimilarityService.analyzeDescriptionSimilarity`.  The
target string is embedded once up front (unconditionally), then every
candidate description is embedded and compared. -/
def analyzeDescriptionSimilarity (sqrtQ : ℚ → ℚ) (genEmb : List Char → List ℚ)
    (thr : Thresholds) (target : String) (trademarks : List CorpusItem) :
    Except String (List DescResult) :=
  let targetEmbedding := genEmb target.toList
  descLoop sqrtQ genEmb thr targetEmbedding trademarks

/-- Per-candidate record stored by the phonetic pass. -/
structure PhonSim where
  score : ℚ
  targetPhonetic : String
  trademarkPhonetic : String
  deriving Repr, DecidableEq

/-- One entry of the phonetic pass result list. -/
structure PhonResult where
  trademark : CorpusItem
  phoneticSimilarity : PhonSim
  deriving Repr, DecidableEq

/-- Source: `SimilarityService.analyzePhoneticSimilarity`.  The name
field read here is `trademark.namaMerek || ''`. -/
def analyzePhoneticSimilarity (thr : Thresholds) (target : String)
    (trademarks : List CorpusItem) : List PhonResult :=
  let targetPhonetic := generatePhoneticCode target.toList
  trademarks.filterMap (fun tm =>
    let trademarkPhonetic := generatePhoneticCode tm.namaMerek.toList
    let phoneticScore := calculatePhoneticSimilarity targetPhonetic trademarkPhonetic
    if phoneticScore ≥ thr.phoneticSimilarity then
      some ⟨tm, ⟨phoneticScore, String.mk targetPhonetic, String.mk trademarkPhonetic⟩⟩
    else none)

/-! ## Fusion -/

/-- Entry stored in the fusion map before scoring. -/
structure CombinedItem where
  trademark : CorpusItem
  textSimilarity : Option TextSim
  descriptionSimilarity : Option DescSim
  phoneticSimilarity : Option PhonSim
  deriving Repr, DecidableEq

/-- The `similarityBreakdown` record of a scored result. -/
structure SimilarityBreakdown where
  text : ℚ
  description : ℚ
  phonetic : ℚ
  deriving Repr, DecidableEq

/-- One scored fusion result (a `SimilarityResult`). -/
structure ScoredItem where
  trademark : CorpusItem
  textSimilarity : Option TextSim
  descriptionSimilarity : Option DescSim
  phoneticSimilarity : Option PhonSim
  overallScore : ℚ
  similarityBreakdown : SimilarityBreakdown
  deriving Repr, DecidableEq

/-- Fusion key (lines 276-278, 289-291, 305-308):
`nomorPermohonan || id || sourceDocument`. -/
def resultKey (tm : CorpusItem) : String :=
  if tm.nomorPermohonan ≠ "" then tm.nomorPermohonan
  else if tm.id ≠ "" then tm.id
  else tm.sourceDocument

/-- JavaScript `Map.prototype.set`: replace the value of an existing
key in place, otherwise append in insertion order. -/
def mapSet (m : List (String × CombinedItem)) (k : String) (v : CombinedItem) :
    List (String × CombinedItem) :=
  if m.any (fun e => e.1 = k) then m.map (fun e => if e.1 = k then (k, v) else e)
  else m ++ [(k, v)]

/-- Mutation of the entry stored under an existing key
(`combinedMap.get(key).field = value`). -/
def mapUpdate (m : List (String × CombinedItem)) (k : String)
    (f : CombinedItem → CombinedItem) : List (String × CombinedItem) :=
  m.map (fun e => if e.1 = k then (k, f e.2) else e)

/-- Component defaulting of the scoring step:
`item.textSimilarity?.overall || 0` and its two analogues. -/
def textComponent (o : Option TextSim) : ℚ :=
  match o with | some t => t.overall | none => 0

/-- Semantic component or zero. -/
def descComponent (o : Option DescSim) : ℚ :=
  match o with | some d => d.semantic | none => 0

/-- Phonetic component or zero. -/
def phonComponent (o : Option PhonSim) : ℚ :=
  match o with | some p => p.score | none => 0

/-- Source: `SimilarityService.combineAndScoreResults`.  The three pass
results are merged into one insertion-ordered map keyed by
`resultKey`; every entry is then scored with
`0.4 * text + 0.3 * description + 0.3 * phonetic`, absent components
contributing zero.  The `target` argument is unused in the source as
well. -/
def combineAndScoreResults (_target : String) (textResults : List TextResult)
    (descResults : List DescResult) (phoneticResults : List PhonResult) :
    List ScoredItem :=
  let m1 := textResults.foldl
    (fun m r => mapSet m (resultKey r.trademark)
      ⟨r.trademark, some r.textSimilarity, none, none⟩) []
  let m2 := descResults.foldl
    (fun m r =>
      let key := resultKey r.trademark
      if m.any (fun e => e.1 = key) then
        mapUpdate m key (fun it => { it with descriptionSimilarity := some r.descriptionSimilarity })
      else m ++ [(key, ⟨r.trademark, none, some r.descriptionSimilarity, none⟩)]) m1
  let m3 := phoneticResults.foldl
    (fun m r =>
      let key := resultKey r.trademark
      if m.any (fun e => e.1 = key) then
        mapUpdate m key (fun it => { it with phoneticSimilarity := some r.phoneticSimilarity })
      else m ++ [(key, ⟨r.trademark, none, none, some r.phoneticSimilarity⟩)]) m2
  m3.map (fun e =>
    let textScore := textComponent e.2.textSimilarity
    let descScore := descComponent e.2.descriptionSimilarity
    let phoneticScore := phonComponent e.2.phoneticSimilarity
    { trademark := e.2.trademark
      textSimilarity := e.2.textSimilarity
      descriptionSimilarity := e.2.descriptionSimilarity
      phoneticSimilarity := e.2.phoneticSimilarity
      overallScore := textScore * (4 / 10) + descScore * (3 / 10) + phoneticScore * (3 / 10)
      similarityBreakdown := ⟨textScore, descScore, phoneticScore⟩ })

/-! ## The analysis pipeline -/

/-- Options object of `analyzeSimilarity`; absent keys take the
destructuring defaults `topK = 20`, `includePhonetic = true`,
`includeVisual = false`.  The `dateRange` option only feeds
`getAllTrademarks`, which sits outside this boundary (its output is
the `allTrademarks` argument). -/
structure AnalyzeOptions where
  topK : Option ℕ := none
  includePhonetic : Option Bool := none
  includeVisual : Option Bool := none
  deriving Repr, DecidableEq

/-- Response record of `analyzeSimilarity` (the `analysisDate`
timestamp and the echoed options are omitted). -/
structure AnalysisResult where
  targetTrademark : String
  totalCompared : ℕ
  similarTrademarks : List ScoredItem
  deriving Repr, DecidableEq

/-- Comparator of the final sort:
`(a, b) => b.overallScore - a.overallScore` orders by descending
overall score. -/
def scoreGE (a b : ScoredItem) : Prop :=
  b.overallScore ≤ a.overallScore

instance : DecidableRel scoreGE := fun a b => by
  unfold scoreGE; infer_instance

/-- Source: `SimilarityService.analyzeSimilarity`.  Text pass, then
description pass (whose provider errors would propagate — the model
shows they cannot arise), optional phonetic pass, fusion, threshold
filter, descending stable sort, truncation to `topK`. -/
def analyzeSimilarity (sqrtQ : ℚ → ℚ) (provider : EmbeddingProvider) (rand : ℕ → ℚ)
    (thresholds : Thresholds) (targetTrademark : String)
    (allTrademarks : List CorpusItem) (options : AnalyzeOptions) :
    Except String AnalysisResult :=
  match analyzeDescriptionSimilarity sqrtQ (VectorService.generateEmbedding provider rand)
      thresholds targetTrademark allTrademarks with
  | .error e => .error e
  | .ok descriptionSimilarityResults =>
    .ok { targetTrademark := targetTrademark
          totalCompared := allTrademarks.length
          similarTrademarks :=
            (List.insertionSort scoreGE
              ((combineAndScoreResults targetTrademark
                  (analyzeTextSimilarity thresholds targetTrademark allTrademarks)
                  descriptionSimilarityResults
                  (if options.includePhonetic.getD true then
                    analyzePhoneticSimilarity thresholds targetTrademark allTrademarks
                  else [])).filter
                (fun r => r.overallScore ≥ thresholds.overallSimilarity))).take
              (options.topK.getD 20) }

/-- Result list of an analysis call; an error outcome carries no
results. -/
def similarListOf (e : Except String AnalysisResult) : List ScoredItem :=
  match e with
  | .ok r => r.similarTrademarks
  | .error _ => []

/-! ## TrademarkData (src/types/trademarkTypes.js, listed in the
backend README) -/

/-- Argument object accepted by the `TrademarkData` constructor.  The
constructor reads the eighteen named keys; call sites additionally pass
`pageNumber` and `extractionMethod` (see `extractFieldsFromContext`),
which the constructor silently ignores — those two keys are therefore
part of the input type but of no effect. -/
structure TrademarkInput where
  nomorPermohonan : Option String := none
  tanggalPenerimaan : Option String := none
  prioritas : Option String := none
  namaPemohon : Option String := none
  alamatPemohon : Option String := none
  namaKuasa : Option String := none
  alamatKuasa : Option String := none
  tipeMerek : Option String := none
  namaReferensiLabelMerek : Option String := none
  artiBahasa : Option String := none
  uraianWarna : Option String := none
  kelasBarangJasa : Option String := none
  uraianBarangJasa : Option String := none
  statusPermohonan : Option String := none
  tanggalPublikasi : Option String := none
  nomorSertifikat : Option String := none
  tanggalSertifikat : Option String := none
  masaBerlaku : Option String := none
  pageNumber : Option ℕ := none
  extractionMethod : Option String := none
  deriving Repr, DecidableEq

/-- The `TrademarkData` class: exactly the eighteen string fields
assigned by its constructor, each defaulting to the empty string.  The
class defines no `applicationNumber`, `pageNumber` or
`extractionMethod` property. -/
structure TrademarkData where
  nomorPermohonan : String
  tanggalPenerimaan : String
  prioritas : String
  namaPemohon : String
  alamatPemohon : String
  namaKuasa : String
  alamatKuasa : String
  tipeMerek : String
  namaReferensiLabelMerek : String
  artiBahasa : String
  uraianWarna : String
  kelasBarangJasa : String
  uraianBarangJasa : String
  statusPermohonan : String
  tanggalPublikasi : String
  nomorSertifikat : String
  tanggalSertifikat : String
  masaBerlaku : String
  deriving Repr, DecidableEq, Inhabited

/-- Source: the `TrademarkData` constructor — every field is
`data.field || ''`. -/
def mkTrademarkData (d : TrademarkInput) : TrademarkData :=
  { nomorPermohonan := d.nomorPermohonan.getD ""
    tanggalPenerimaan := d.tanggalPenerimaan.getD ""
    prioritas := d.prioritas.getD ""
    namaPemohon := d.namaPemohon.getD ""
    alamatPemohon := d.alamatPemohon.getD ""
    namaKuasa := d.namaKuasa.getD ""
    alamatKuasa := d.alamatKuasa.getD ""
    tipeMerek := d.tipeMerek.getD ""
    namaReferensiLabelMerek := d.namaReferensiLabelMerek.getD ""
    artiBahasa := d.artiBahasa.getD ""
    uraianWarna := d.uraianWarna.getD ""
    kelasBarangJasa := d.kelasBarangJasa.getD ""
    uraianBarangJasa := d.uraianBarangJasa.getD ""
    statusPermohonan := d.statusPermohonan.getD ""
    tanggalPublikasi := d.tanggalPublikasi.getD ""
    nomorSertifikat := d.nomorSertifikat.getD ""
    tanggalSertifikat := d.tanggalSertifikat.getD ""
    masaBerlaku := d.masaBerlaku.getD "" }

/-- Property access `trademark.applicationNumber` on a `TrademarkData`
instance: the constructor never defines this property (the application
number lives in `nomorPermohonan`), so the access evaluates to
JavaScript `undefined`, modelled as `none`, for every instance. -/
def TrademarkData.applicationNumber (_ : TrademarkData) : Option String :=
  none

/-- Property access `trademark.extractionMethod` on a `TrademarkData`
instance: the constructor copies only the eighteen listed fields and
drops the `extractionMethod` key passed by `extractFieldsFromContext`,
so the access evaluates to `undefined` (`none`) for every instance. -/
def TrademarkData.extractionMethod (_ : TrademarkData) : Option String :=
  none

/-- Result object of `TrademarkData.validate`. -/
structure ValidationResult where
  isValid : Bool
  errors : List String
  deriving Repr, DecidableEq

/-- Source: `TrademarkData.validate` — the record is valid exactly when
application number, mark name and class are all non-empty. -/
def TrademarkData.validate (t : TrademarkData) : ValidationResult :=
  let errors :=
    (if t.nomorPermohonan = "" then ["Nomor permohonan wajib diisi"] else [])
      ++ (if t.namaReferensiLabelMerek = "" then ["Nama merek wajib diisi"] else [])
      ++ (if t.kelasBarangJasa = "" then ["Kelas barang/jasa wajib diisi"] else [])
  ⟨errors.length = 0, errors⟩

/-- Source: `TrademarkParserService.isValidTrademark`. -/
def isValidTrademark (t : TrademarkData) : Bool :=
  t.validate.isValid

/-! ## Deduplication and parsing escalation
(`TrademarkParserService`) -/

/-- Loop of `deduplicateTrademarks` with its `seen` set (the JavaScript
`Set` may hold `undefined`, hence `Option String` keys). -/
def dedupGo (seen : List (Option String)) : List TrademarkData → List TrademarkData
  | [] => []
  | t :: rest =>
    let key := t.applicationNumber
    if seen.contains key then dedupGo seen rest
    else t :: dedupGo (key :: seen) rest

/-- Source: `TrademarkParserService.deduplicateTrademarks`
(similarityService.js lines 1528-1541): keep a record when its
`trademark.applicationNumber` key has not been seen before. -/
def deduplicateTrademarks (trademarks : List TrademarkData) : List TrademarkData :=
  dedupGo [] trademarks

/-- Page chunk as produced by the document pipeline. -/
structure PageChunk where
  content : String := ""
  pageNumber : ℕ := 0
  hasTrademarkData : Bool := false
  deriving Repr, DecidableEq

/-- Field extraction oracle: abstracts the regex cascade and cleanup of
`parseSection` (patterns of `TRADEMARK_PATTERNS`, the date group
assembly, text cleaning, address / priority / meaning extraction),
which together assemble the `extractedData` object handed to the
`TrademarkData` constructor.  Theorems quantify over it, so they hold
in particular for the concrete cascade. -/
def FieldExtractor : Type := String → TrademarkInput

/-- Source: `TrademarkParserService.parseSection` — the extracted data
of a section is passed through the `TrademarkData` constructor (the
`catch` branch returning `null` is unreachable for the abstracted
total extractor). -/
def parseSection (extractFields : FieldExtractor) (sec : String) : Option TrademarkData :=
  some (mkTrademarkData (extractFields sec))

/-- Source: `TrademarkParserService.extractTrademarkData` (the
traditional, coarse pass): split the whole text into sections
(`splitIntoSections`, abstracted as `splitSections` — lookahead splits
on label text, triple line breaks, `===` and `---` runs), parse each
section, keep the valid records. -/
def extractTrademarkData (splitSections : String → List String)
    (extractFields : FieldExtractor) (text : String) : List TrademarkData :=
  (splitSections text).filterMap (fun sec =>
    match parseSection extractFields sec with
    | some td => if isValidTrademark td then some td else none
    | none => none)

/-- Source: `TrademarkParserService.parseTrademarkDataEnhanced`
(similarityService.js lines 1391-1423).  Pages flagged as carrying
trademark data are parsed (`parsePageChunk`, abstracted as
`parsePageChunkFn`) and the valid records kept; when that yields zero
records the whole document text is re-run through exactly one
traditional pass and that result returned as is; otherwise the records
are deduplicated. -/
def parseTrademarkDataEnhanced (parsePageChunkFn : PageChunk → List TrademarkData)
    (splitSections : String → List String) (extractFields : FieldExtractor)
    (pageChunks : List PageChunk) (fullText : String) : List TrademarkData :=
  if (((pageChunks.filter (fun c => c.hasTrademarkData)).map
      parsePageChunkFn).flatten).filter isValidTrademark = [] then
    extractTrademarkData splitSections extractFields fullText
  else
    deduplicateTrademarks ((((pageChunks.filter (fun c => c.hasTrademarkData)).map
      parsePageChunkFn).flatten).filter isValidTrademark)

/-! ## Document chunking (`DocumentService`) -/

namespace DocumentService

/-- Constructor constant `this.chunkSize = 2000`. -/
def chunkSize : ℕ := 2000

/-- Constructor constant `this.chunkOverlap = 400`. -/
def chunkOverlap : ℕ := 400

/-- JavaScript `text.lastIndexOf(c, fr)`: index of the last occurrence
of `c` at a position `≤ fr`, or `-1`. -/
def jsLastIndexOf (s : List Char) (c : Char) (fr : ℕ) : Int :=
  match ((List.range (min (fr + 1) s.length)).filter (fun i => s.getD i ' ' = c)).getLast? with
  | some i => (i : Int)
  | none => -1

/-- Boundary-aware end position of one chunk (lines 303-323): start
plus the chunk size, pulled back to just after the last sentence mark
if one lies past the window midpoint, else to the last space past the
midpoint.  `chunkSize * 0.5` is exactly `1000`. -/
def chunkEnd (s : List Char) (start : ℕ) : ℕ :=
  let e := start + chunkSize
  if e < s.length then
    let sentenceEnd := jsLastIndexOf s '.' e
    let exclamationEnd := jsLastIndexOf s '!' e
    let questionEnd := jsLastIndexOf s '?' e
    let maxSentenceEnd := max sentenceEnd (max exclamationEnd questionEnd)
    if maxSentenceEnd > (start : Int) + (chunkSize : Int) / 2 then (maxSentenceEnd + 1).toNat
    else
      let spaceIndex := jsLastIndexOf s ' ' e
      if spaceIndex > (start : Int) + (chunkSize : Int) / 2 then spaceIndex.toNat
      else e
  else e

/-- The adjusted end is always at least `start + chunkSize / 2 + 1`:
each boundary adjustment is gated on lying strictly past the midpoint,
and the unadjusted end is a whole chunk away. -/
theorem chunkEnd_lower (s : List Char) (start : ℕ) :
    start + chunkSize / 2 + 1 ≤ chunkEnd s start := by
  unfold chunkEnd
  by_cases h1 : start + chunkSize < s.length
  · simp only [h1, if_true]
    by_cases h2 : max (jsLastIndexOf s '.' (start + chunkSize))
        (max (jsLastIndexOf s '!' (start + chunkSize))
          (jsLastIndexOf s '?' (start + chunkSize))) > (start : Int) + (chunkSize : Int) / 2
    · simp only [h2, if_true]
      omega
    · simp only [h2, if_false]
      by_cases h3 : jsLastIndexOf s ' ' (start + chunkSize) > (start : Int) + (chunkSize : Int) / 2
      · simp only [h3, if_true]
        omega
      · simp only [h3, if_false]
        simp [chunkSize]
    -- the numeric goals close by omega over the Int hypotheses
  · simp only [h1, if_false]
    simp [chunkSize]

/-- While loop of the traditional chunking branch of `splitIntoChunks`
(lines 299-335): emit the trimmed slice `[start, end)` when non-empty
and restart at `end - chunkOverlap` (never negative, since the end is
at least `start + 1001`). -/
def splitChunksLoop (s : List Char) (start : ℕ) : List (List Char) :=
  if _h : start < s.length then
    let e := chunkEnd s start
    let chunk := jsTrim ((s.drop start).take (e - start))
    let rest := splitChunksLoop s (e - chunkOverlap)
    if chunk.length > 0 then chunk :: rest else rest
  else []
  termination_by s.length - start
  decreasing_by
    have := chunkEnd_lower s start
    simp only [chunkSize, chunkOverlap] at *
    omega

/-- ASCII digit test (`\d`). -/
def isDigitChar (c : Char) : Bool :=
  '0' ≤ c ∧ c ≤ '9'

/-- ASCII letter test (`[A-Za-z]`). -/
def isAsciiLetter (c : Char) : Bool :=
  ('A' ≤ c ∧ c ≤ 'Z') ∨ ('a' ≤ c ∧ c ≤ 'z')

/-- Match of the anchor regex `(?:210|220)\s+(\d{4}\d{6,})` at one
position: the literal `210` or `220`, at least one whitespace
character (maximal run; `\s` and `\d` are disjoint so the greedy run
is exact), then at least ten digits.  Returns the full match length. -/
def anchorMatchLen (s : List Char) (i : ℕ) : Option ℕ :=
  match s.drop i with
  | c1 :: c2 :: c3 :: rest =>
    if (c1 = '2' ∧ c2 = '1' ∧ c3 = '0') ∨ (c1 = '2' ∧ c2 = '2' ∧ c3 = '0') then
      let wsLen := (rest.takeWhile isJsWs).length
      if wsLen = 0 then none
      else
        let digits := ((rest.drop wsLen).takeWhile isDigitChar).length
        if digits ≥ 10 then some (3 + wsLen + digits) else none
    else none
  | _ => none

/-- Scan of `applicationNumberPattern.exec` in a `while` loop: try each
position in order; after a match of length `L` continue at `i + L`
(the regex `lastIndex`).  The `max` with `i + 1` only serves the
termination measure — a match length is at least `14 > 0`. -/
def findAnchors (s : List Char) (i : ℕ) : List ℕ :=
  if _h : i < s.length then
    match anchorMatchLen s i with
    | some len => i :: findAnchors s (max (i + 1) (i + len))
    | none => findAnchors s (i + 1)
  else []
  termination_by s.length - i
  decreasing_by all_goals omega

/-- Split positions of `text.split(/(?=\d{3}[A-Za-z])/)`: three digits
followed by a letter begin at the position (a zero-width match at
position `0` produces no leading cut). -/
def fieldCodeBoundary (s : List Char) (j : ℕ) : Bool :=
  j + 3 < s.length ∧ isDigitChar (s.getD j ' ') ∧ isDigitChar (s.getD (j + 1) ' ')
    ∧ isDigitChar (s.getD (j + 2) ' ') ∧ isAsciiLetter (s.getD (j + 3) ' ')

/-- Segments of the text between consecutive field-code boundaries. -/
def splitAtFieldCodes (s : List Char) : List (List Char) :=
  let cuts := 0 :: (List.range s.length).filter (fun j => 0 < j ∧ fieldCodeBoundary s j)
  (List.range cuts.length).map (fun k =>
    let a := cuts.getD k 0
    let b := match cuts.get? (k + 1) with
      | some x => x
      | none => s.length
    (s.drop a).take (b - a))

/-- Source: `DocumentService.splitLargeTrademarkEntry`: greedy
re-packing of field-code sections into chunks of at most `chunkSize`
characters (joined by single spaces), keeping only chunks longer than
50 characters. -/
def splitLargeTrademarkEntry (s : List Char) : List (List Char) :=
  let sections := splitAtFieldCodes s
  let acc := sections.foldl
    (fun (acc : List (List Char) × List Char) sec =>
      if acc.2.length + sec.length > chunkSize ∧ acc.2 ≠ [] then
        (acc.1 ++ [jsTrim acc.2], sec)
      else (acc.1, if acc.2 ≠ [] then acc.2 ++ [' '] ++ sec else sec))
    ([], [])
  let chunks := if jsTrim acc.2 ≠ [] then acc.1 ++ [jsTrim acc.2] else acc.1
  chunks.filter (fun c => c.length > 50)

/-- Source: `DocumentService.createSemanticChunks`: every application
number anchor opens a window from 200 characters of left context to
the next anchor (or the end of text); oversized windows are re-split
on field codes, fragments of at most 100 characters are dropped. -/
def createSemanticChunks (s : List Char) : List (List Char) :=
  let anchors := findAnchors s 0
  if anchors.isEmpty then []
  else
    (List.range anchors.length).foldl
      (fun chunks idx =>
        let pos := anchors.getD idx 0
        let startPos := pos - 200
        let endPos := match anchors.get? (idx + 1) with
          | some p => p
          | none => s.length
        let chunkText := jsTrim ((s.drop startPos).take (endPos - startPos))
        if chunkText.length > chunkSize * 2 then chunks ++ splitLargeTrademarkEntry chunkText
        else if chunkText.length > 100 then chunks ++ [chunkText]
        else chunks)
      []

/-- Source: `DocumentService.splitIntoChunks` (lines 285-336): empty
input returns the empty list; anchor-based semantic chunks win when
any exist; otherwise the traditional overlapping loop runs. -/
def splitIntoChunks (s : List Char) : List (List Char) :=
  if s.length = 0 then []
  else
    let semanticChunks := createSemanticChunks s
    if semanticChunks.length > 0 then semanticChunks
    else splitChunksLoop s 0

end DocumentService

/-! # Verified properties -/

/-- Identity function standing in for `Math.sqrt` in concrete
evaluations; no theorem depends on the values of the abstraction. -/
def sqrtIdQ : ℚ → ℚ := fun q => q

/-- Embedding provider whose every call throws. -/
def failingProvider (msg : String) : EmbeddingProvider := fun _ => Except.error msg

/-- Constant random source used in concrete evaluations. -/
def randConst : ℕ → ℚ := fun _ => 1 / 1000

/-! ## C9: partial threshold merge -/

/-- C9: the threshold admin update performs a partial merge — every
field provided in the (validated) request body takes the new value and
every field not provided keeps its previous value. -/
theorem updateThresholds_partial_merge (cur : Thresholds) (patch : ThresholdPatch) :
    (updateThresholds cur patch).textSimilarity = patch.textSimilarity.getD cur.textSimilarity
    ∧ (updateThresholds cur patch).phoneticSimilarity
        = patch.phoneticSimilarity.getD cur.phoneticSimilarity
    ∧ (updateThresholds cur patch).semanticSimilarity
        = patch.semanticSimilarity.getD cur.semanticSimilarity
    ∧ (updateThresholds cur patch).overallSimilarity
        = patch.overallSimilarity.getD cur.overallSimilarity := by
  obtain ⟨t, p, se, o⟩ := patch
  cases t <;> cases p <;> cases se <;> cases o <;>
    simp [updateThresholds, Option.getD]

/-! ## C1: deduplication -/

/-- First sample record: valid, application number `DID2024000001`. -/
def dedupSampleA : TrademarkData :=
  mkTrademarkData { nomorPermohonan := some "DID2024000001",
                    namaReferensiLabelMerek := some "KOPIKU",
                    kelasBarangJasa := some "30" }

/-- Second sample record: valid, application number `DID2024000002`. -/
def dedupSampleB : TrademarkData :=
  mkTrademarkData { nomorPermohonan := some "DID2024000002",
                    namaReferensiLabelMerek := some "TEHKU",
                    kelasBarangJasa := some "30" }

/-- C1: deduplication keys on the nonexistent `applicationNumber`
property, so two valid records with distinct application numbers
(`nomorPermohonan`) collapse to the first record alone — the second is
discarded even though its application number is different, against the
stated policy that records with distinct application numbers are all
retained. -/
theorem deduplicateTrademarks_collapses_distinct_records :
    dedupSampleA.nomorPermohonan ≠ dedupSampleB.nomorPermohonan
    ∧ isValidTrademark dedupSampleA = true
    ∧ isValidTrademark dedupSampleB = true
    ∧ deduplicateTrademarks [dedupSampleA, dedupSampleB] = [dedupSampleA] := by
  decide

/-! ## C3: weighted fusion -/

/-- C3: every fused record is scored
`0.4 * lexical + 0.3 * semantic + 0.3 * phonetic` with absent
components contributing zero, and a candidate present only in the
semantic pass scores `0.3` times its semantic score. -/
theorem combineAndScoreResults_weighted_fusion :
    (∀ (target : String) (tR : List TextResult) (dR : List DescResult)
        (pR : List PhonResult),
      ∀ item ∈ combineAndScoreResults target tR dR pR,
        item.overallScore = textComponent item.textSimilarity * (4 / 10)
          + descComponent item.descriptionSimilarity * (3 / 10)
          + phonComponent item.phoneticSimilarity * (3 / 10))
    ∧ (∀ (target : String) (tm : CorpusItem) (ds : DescSim),
        (combineAndScoreResults target [] [⟨tm, ds⟩] []).map (fun r => r.overallScore)
          = [ds.semantic * (3 / 10)]) := by
  constructor
  · intro target tR dR pR item hmem
    unfold combineAndScoreResults at hmem
    simp only [List.mem_map] at hmem
    obtain ⟨e, _, rfl⟩ := hmem
    rfl
  · intro target tm ds
    norm_num [combineAndScoreResults, mapSet, textComponent, descComponent, phonComponent]

/-- Corpus item used by concrete fusion evaluations. -/
def fusionWitnessItem : CorpusItem := { namaMerek := "SEMANTIKA" }

/-- Witness for C3: on a concrete semantic-only candidate with score
`0.9` the fused overall score is `0.27`. -/
theorem combineAndScoreResults_weighted_fusion_witness :
    ((combineAndScoreResults "t" [] [⟨fusionWitnessItem, ⟨9 / 10, "d"⟩⟩] []).get
        ⟨0, by norm_num [combineAndScoreResults, mapSet]⟩).overallScore = 27 / 100 := by
  have h := combineAndScoreResults_weighted_fusion.1 "t" []
    [⟨fusionWitnessItem, ⟨9 / 10, "d"⟩⟩] []
    ((combineAndScoreResults "t" [] [⟨fusionWitnessItem, ⟨9 / 10, "d"⟩⟩] []).get
      ⟨0, by norm_num [combineAndScoreResults, mapSet]⟩)
    (List.get_mem _ _ _)
  rw [h]
  norm_num [combineAndScoreResults, mapSet, textComponent, descComponent, phonComponent]

/-! ## C4 and C5: threshold filter and Top-K bound -/

/-- Every member of the filter-sort-take pipeline passed the threshold
filter. -/
theorem mem_pipeline_ge (l : List ScoredItem) (thr : ℚ) (k : ℕ) (r : ScoredItem)
    (hr : r ∈ (List.insertionSort scoreGE
      (l.filter (fun x => x.overallScore ≥ thr))).take k) :
    thr ≤ r.overallScore := by
  have h1 : r ∈ List.insertionSort scoreGE (l.filter (fun x => x.overallScore ≥ thr)) :=
    List.take_subset _ _ hr
  have h2 : r ∈ l.filter (fun x => x.overallScore ≥ thr) :=
    (List.perm_insertionSort scoreGE _).subset h1
  have h3 := (List.mem_filter.mp h2).2
  simpa using h3

/-- C4: every similarity result returned by `analyzeSimilarity` has an
overall score at least the `overallSimilarity` threshold of the
configuration passed to (read at the start of) the call. -/
theorem analyzeSimilarity_respects_overall_threshold
    (sqrtQ : ℚ → ℚ) (provider : EmbeddingProvider) (rand : ℕ → ℚ)
    (thresholds : Thresholds) (target : String) (corpus : List CorpusItem)
    (options : AnalyzeOptions) :
    ∀ r ∈ similarListOf (analyzeSimilarity sqrtQ provider rand thresholds target corpus options),
      thresholds.overallSimilarity ≤ r.overallScore := by
  intro r hr
  unfold analyzeSimilarity at hr
  cases hdesc : analyzeDescriptionSimilarity sqrtQ
      (VectorService.generateEmbedding provider rand) thresholds target corpus with
  | error e =>
    rw [hdesc] at hr
    simp [similarListOf] at hr
  | ok dR =>
    rw [hdesc] at hr
    exact mem_pipeline_ge _ _ _ r hr

/-- Evaluation of the concrete pipeline used by the C4 witness and the
C2 counterexample: the target `"ab"` against the single corpus item
named `"ab"` with a failing provider yields exactly one result, scored
`0.7 = 0.4 * 1 + 0.3 * 1` (lexical and phonetic identity scores, no
description). -/
theorem witnessPipelineEval :
    similarListOf (analyzeSimilarity sqrtIdQ (failingProvider "down") randConst
        defaultThresholds "ab" [{ namaMerek := "ab" }] {})
      = [{ trademark := { namaMerek := "ab" }
           textSimilarity := some ⟨1, 1, 1, 1⟩
           descriptionSimilarity := none
           phoneticSimilarity := some ⟨1, "ab", "ab"⟩
           overallScore := 7 / 10
           similarityBreakdown := ⟨1, 0, 1⟩ }] := by
  have hlev : calculateLevenshteinSimilarity ['a', 'b'] ['a', 'b'] = 1 := by
    norm_num [calculateLevenshteinSimilarity,
      show levenshteinDistance ['a', 'b'] ['a', 'b'] = 0 from rfl]
  have hjaro : jaroSimilarity ['a', 'b'] ['a', 'b'] = 1 := by
    have hmc : (jaroMatch ['a', 'b'] ['a', 'b'] 0).matchCount = 2 := rfl
    have hcm : countMismatches
        (matchedChars ['a', 'b'] (jaroMatch ['a', 'b'] ['a', 'b'] 0).m1)
        (matchedChars ['a', 'b'] (jaroMatch ['a', 'b'] ['a', 'b'] 0).m2) = 0 := rfl
    norm_num [jaroSimilarity, jaroMatchWindow, hmc, hcm]
  have hjw : calculateJaroWinklerSimilarity ['a', 'b'] ['a', 'b'] = 1 := by
    rw [calculateJaroWinklerSimilarity, hjaro]
    norm_num
  have hsub : calculateSubstringSimilarity ['a', 'b'] ['a', 'b'] = 1 := by
    norm_num [calculateSubstringSimilarity,
      show longestCommonSubstring ['a', 'b'] ['a', 'b'] = ['a', 'b'] from rfl]
  have htext : analyzeTextSimilarity defaultThresholds "ab" [{ namaMerek := "ab" }]
      = [⟨{ namaMerek := "ab" }, ⟨1, 1, 1, 1⟩⟩] := by
    unfold analyzeTextSimilarity
    simp only [List.filterMap_cons, List.filterMap_nil]
    rw [show normalizeText (trademarkNameOf { namaMerek := "ab" }).toList = ['a', 'b'] from rfl,
      show normalizeText "ab".toList = ['a', 'b'] from rfl, hlev, hjw, hsub]
    norm_num [defaultThresholds]
  have hphon : analyzePhoneticSimilarity defaultThresholds "ab" [{ namaMerek := "ab" }]
      = [⟨{ namaMerek := "ab" }, ⟨1, "ab", "ab"⟩⟩] := by
    have e3 : calculatePhoneticSimilarity ['a', 'b'] ['a', 'b'] = 1 := by
      norm_num [calculatePhoneticSimilarity, calculateLevenshteinSimilarity,
        show levenshteinDistance ['a', 'b'] ['a', 'b'] = 0 from rfl]
    unfold analyzePhoneticSimilarity
    simp only [List.filterMap_cons, List.filterMap_nil]
    rw [show generatePhoneticCode ({ namaMerek := "ab" } : CorpusItem).namaMerek.toList
        = ['a', 'b'] from rfl, e3]
    rw [if_pos (by norm_num [defaultThresholds])]
  have hdesc : analyzeDescriptionSimilarity sqrtIdQ
      (VectorService.generateEmbedding (failingProvider "down") randConst)
      defaultThresholds "ab" [{ namaMerek := "ab" }] = Except.ok [] := by
    unfold analyzeDescriptionSimilarity descLoop
    rw [if_neg (by simp [descriptionOf, jsTrim])]
    rfl
  unfold analyzeSimilarity
  rw [hdesc]
  simp only [similarListOf]
  rw [show (({} : AnalyzeOptions).includePhonetic.getD true) = true from rfl, if_pos rfl]
  rw [htext, hphon]
  rw [show (({} : AnalyzeOptions).topK.getD 20) = 20 from rfl]
  norm_num [combineAndScoreResults, mapSet, mapUpdate, resultKey, textComponent,
    descComponent, phonComponent, List.insertionSort, List.orderedInsert,
    defaultThresholds]

/-- Corpus item whose name equals the witness target. -/
def pipelineWitnessItem : CorpusItem := { namaMerek := "ab" }

/-- Witness for C4: a concrete analysis returns a first result and its
overall score (`0.7`) is at least the default overall threshold
(`0.3`). -/
theorem analyzeSimilarity_respects_overall_threshold_witness :
    defaultThresholds.overallSimilarity ≤
      ((similarListOf (analyzeSimilarity sqrtIdQ (failingProvider "down") randConst
        defaultThresholds "ab" [{ namaMerek := "ab" }] {})).get
          ⟨0, by rw [witnessPipelineEval]; decide⟩).overallScore :=
  analyzeSimilarity_respects_overall_threshold sqrtIdQ (failingProvider "down") randConst
    defaultThresholds "ab" [{ namaMerek := "ab" }] {} _ (List.get_mem _ _ _)

/-- C5: `analyzeSimilarity` returns at most `topK` results, `topK`
defaulting to `20` when the option is not supplied. -/
theorem analyzeSimilarity_topK_bound
    (sqrtQ : ℚ → ℚ) (provider : EmbeddingProvider) (rand : ℕ → ℚ)
    (thresholds : Thresholds) (target : String) (corpus : List CorpusItem)
    (options : AnalyzeOptions) :
    (similarListOf (analyzeSimilarity sqrtQ provider rand thresholds target corpus options)).length
      ≤ options.topK.getD 20 := by
  unfold analyzeSimilarity
  cases hdesc : analyzeDescriptionSimilarity sqrtQ
      (VectorService.generateEmbedding provider rand) thresholds target corpus with
  | error e => simp [similarListOf]
  | ok dR =>
    simp only [similarListOf, List.length_take]
    exact min_le_left _ _

/-! ## C2: embedding failure handling -/

/-- C2 counterexample: the provider call for the target embedding
throws, yet the analysis call succeeds — the claimed fail-fast
propagation does not happen. -/
theorem analyzeSimilarity_ok_despite_embedding_error :
    failingProvider "down" (VectorService.truncateForEmbedding "ab".toList)
        = Except.error "down"
    ∧ (analyzeSimilarity sqrtIdQ (failingProvider "down") randConst
        defaultThresholds "ab" [{ namaMerek := "ab" }] {}).isOk = true := by
  refine ⟨rfl, ?_⟩
  have h := witnessPipelineEval
  unfold similarListOf at h
  cases ha : analyzeSimilarity sqrtIdQ (failingProvider "down") randConst
      defaultThresholds "ab" [{ namaMerek := "ab" }] {} with
  | error e =>
    rw [ha] at h
    exact absurd h (by simp)
  | ok res => rfl

/-- The description loop succeeds whenever every embedding it sees has
the length of the target embedding. -/
theorem descLoop_isOk (sqrtQ : ℚ → ℚ) (genEmb : List Char → List ℚ)
    (thr : Thresholds) (tEmb : List ℚ)
    (hlen : ∀ t, (genEmb t).length = tEmb.length) :
    ∀ corpus : List CorpusItem, (descLoop sqrtQ genEmb thr tEmb corpus).isOk = true := by
  intro corpus
  induction corpus with
  | nil => rfl
  | cons tm rest ih =>
    unfold descLoop
    by_cases hd : jsTrim (descriptionOf tm).toList = []
    · rw [if_neg (not_not_intro hd)]
      exact ih
    · rw [if_pos hd]
      have hcos : calculateCosineSimilarity sqrtQ tEmb (genEmb (descriptionOf tm).toList)
          = Except.ok (((tEmb.zip (genEmb (descriptionOf tm).toList)).map
              (fun p => p.1 * p.2)).sum
            / (sqrtQ ((tEmb.map (fun x => x * x)).sum)
              * sqrtQ (((genEmb (descriptionOf tm).toList).map (fun x => x * x)).sum))) := by
        unfold calculateCosineSimilarity
        rw [if_neg (by simp [hlen])]
      rw [hcos]
      cases hrest : descLoop sqrtQ genEmb thr tEmb rest with
      | error e =>
        rw [hrest] at ih
        exact absurd ih (by simp [Except.isOk, Except.toBool])
      | ok tail => rfl

/-- C2 (amended): a provider failure is caught inside
`generateEmbedding`, which substitutes the 1536-dimensional random
fallback vector; the analysis behaves exactly as if the provider had
returned that vector, and it does not fail. -/
theorem generateEmbedding_fallback_no_propagation
    (msg : String) (rand : ℕ → ℚ) (sqrtQ : ℚ → ℚ) (thresholds : Thresholds)
    (target : String) (corpus : List CorpusItem) (options : AnalyzeOptions)
    (text : List Char) :
    VectorService.generateEmbedding (failingProvider msg) rand text
        = fallbackRandomVector rand
    ∧ (fallbackRandomVector rand).length = 1536
    ∧ analyzeSimilarity sqrtQ (failingProvider msg) rand thresholds target corpus options
        = analyzeSimilarity sqrtQ (fun _ => Except.ok (fallbackRandomVector rand)) rand
            thresholds target corpus options
    ∧ (analyzeSimilarity sqrtQ (failingProvider msg) rand thresholds target corpus
        options).isOk = true := by
  have hgen : VectorService.generateEmbedding (failingProvider msg) rand
      = VectorService.generateEmbedding (fun _ => Except.ok (fallbackRandomVector rand)) rand := by
    funext t
    rfl
  refine ⟨rfl, by simp [fallbackRandomVector], ?_, ?_⟩
  · unfold analyzeSimilarity
    rw [hgen]
  · unfold analyzeSimilarity analyzeDescriptionSimilarity
    have hconst : ∀ t, (VectorService.generateEmbedding (failingProvider msg) rand t).length
        = (VectorService.generateEmbedding (failingProvider msg) rand target.toList).length := by
      intro t
      rfl
    cases hdesc : descLoop sqrtQ (VectorService.generateEmbedding (failingProvider msg) rand)
        thresholds (VectorService.generateEmbedding (failingProvider msg) rand target.toList)
        corpus with
    | error e =>
      have hok := descLoop_isOk sqrtQ _ thresholds _ hconst corpus
      rw [hdesc] at hok
      exact absurd hok (by simp [Except.isOk, Except.toBool])
    | ok dR =>
      rfl

/-! ## C10: chunker termination and empty input -/

/-- C10: the generic overlapping chunker is total — on empty input it
returns the empty list, and each loop iteration advances the window
start strictly, by at least `chunkSize / 2 - chunkOverlap = 600`
positions (the measure that makes the loop terminate on every
input). -/
theorem splitIntoChunks_total :
    DocumentService.splitIntoChunks [] = []
    ∧ ∀ (s : List Char) (start : ℕ), start < s.length →
        start + (DocumentService.chunkSize / 2 - DocumentService.chunkOverlap)
            ≤ DocumentService.chunkEnd s start - DocumentService.chunkOverlap
        ∧ start < DocumentService.chunkEnd s start - DocumentService.chunkOverlap := by
  constructor
  · rfl
  · intro s start _h
    have := DocumentService.chunkEnd_lower s start
    simp only [DocumentService.chunkSize, DocumentService.chunkOverlap] at *
    omega

/-- Witness for C10: at a concrete input the loop advance is visible:
from start `0` on an eleven-character text the next start is at least
`600` and strictly past `0`. -/
theorem splitIntoChunks_total_witness :
    (0 : ℕ) + (DocumentService.chunkSize / 2 - DocumentService.chunkOverlap)
        ≤ DocumentService.chunkEnd "hello world".toList 0 - DocumentService.chunkOverlap
    ∧ 0 < DocumentService.chunkEnd "hello world".toList 0 - DocumentService.chunkOverlap :=
  splitIntoChunks_total.2 "hello world".toList 0 (by decide)

/-! ## Levenshtein: the row computation implements the recurrence -/

/-- Spine of one DP row: the entries
`levRec r2 r1, levRec r2 (x1 :: r1), levRec r2 (x2 :: x1 :: r1), ...`
for the successive reversed prefixes of `rest` pushed onto `r1`. -/
def levEntries (r2 r1 : List Char) : List Char → List ℕ
  | [] => [levRec r2 r1]
  | x :: xs => levRec r2 r1 :: levEntries r2 (x :: r1) xs

theorem levRec_nil_right (xs : List Char) : levRec xs [] = xs.length := by
  cases xs <;> simp [levRec]

theorem levEntries_ne_nil (r2 r1 : List Char) (rest : List Char) :
    levEntries r2 r1 rest ≠ [] := by
  cases rest <;> simp [levEntries]

/-- One pass of `levRowGo` maps the row of entries for `r2` to the row
of entries for `c :: r2` (dropping the leading entry, which the outer
loop supplies as the row index). -/
theorem levRowGo_entries (c : Char) (r2 : List Char) :
    ∀ (rest : List Char) (r1 : List Char),
      levRowGo c rest (levEntries r2 r1 rest) (levRec (c :: r2) r1)
        = (levEntries (c :: r2) r1 rest).tail := by
  intro rest
  induction rest with
  | nil => intro r1; simp [levEntries, levRowGo]
  | cons x xs ih =>
    intro r1
    have hne : levEntries r2 (x :: r1) xs ≠ [] := levEntries_ne_nil _ _ _
    have hhead : (levEntries r2 (x :: r1) xs).headD 0 = levRec r2 (x :: r1) := by
      cases xs <;> simp [levEntries]
    have hcur : (if x = c then levRec r2 r1
        else 1 + min (levRec r2 r1)
          (min (levRec (c :: r2) r1) (levRec r2 (x :: r1))))
        = levRec (c :: r2) (x :: r1) := by
      by_cases hxc : x = c
      · subst hxc
        simp [levRec]
      · have hcx : ¬(c = x) := fun h => hxc h.symm
        simp [levRec, hcx, hxc]
    calc levRowGo c (x :: xs) (levEntries r2 r1 (x :: xs)) (levRec (c :: r2) r1)
        = (if x = c then levRec r2 r1
            else 1 + min (levRec r2 r1)
              (min (levRec (c :: r2) r1) ((levEntries r2 (x :: r1) xs).headD 0)))
          :: levRowGo c xs (levEntries r2 (x :: r1) xs)
            (if x = c then levRec r2 r1
              else 1 + min (levRec r2 r1)
                (min (levRec (c :: r2) r1) ((levEntries r2 (x :: r1) xs).headD 0))) := by
          simp [levEntries, levRowGo]
      _ = levRec (c :: r2) (x :: r1)
          :: levRowGo c xs (levEntries r2 (x :: r1) xs) (levRec (c :: r2) (x :: r1)) := by
          rw [hhead, hcur]
      _ = levRec (c :: r2) (x :: r1) :: (levEntries (c :: r2) (x :: r1) xs).tail := by
          rw [ih (x :: r1)]
      _ = (levEntries (c :: r2) r1 (x :: xs)).tail := by
          simp [levEntries]
          cases xs <;> simp [levEntries]

/-- The initial row `[0, 1, ..., n]` is the entry row for the empty
processed prefix. -/
theorem levEntries_nil (r1 : List Char) (rest : List Char) :
    levEntries [] r1 rest = List.range' r1.length (rest.length + 1) := by
  induction rest generalizing r1 with
  | nil => simp [levEntries, levRec, List.range']
  | cons x xs ih =>
    rw [levEntries, List.range'_succ, ih (x :: r1)]
    simp [levRec]

/-- The last entry of a row is the recurrence value of the whole
processed pair of reversed strings. -/
theorem levEntries_getLastD (r2 : List Char) (rest : List Char) :
    ∀ (r1 : List Char) (d : ℕ),
      (levEntries r2 r1 rest).getLastD d = levRec r2 (rest.reverse ++ r1) := by
  induction rest with
  | nil => intro r1 d; simp [levEntries]
  | cons x xs ih =>
    intro r1 d
    rw [levEntries, List.getLastD_cons, ih (x :: r1)]
    simp

/-- Outer fold of `levenshteinDistance`: after consuming `s2rest`, the
row is the entry row for the accumulated reversed prefix. -/
theorem levFold_rows (s1 : List Char) (s2rest : List Char) :
    ∀ (r2acc : List Char),
      s2rest.foldl
        (fun (acc : List ℕ × ℕ) c =>
          let i := acc.2 + 1
          (i :: levRowGo c s1 acc.1 i, i))
        (levEntries r2acc [] s1, r2acc.length)
        = (levEntries (s2rest.reverse ++ r2acc) [] s1, (s2rest.reverse ++ r2acc).length) := by
  induction s2rest with
  | nil => intro r2acc; simp
  | cons c cs ih =>
    intro r2acc
    have hcur : r2acc.length + 1 = levRec (c :: r2acc) [] := by
      rw [levRec_nil_right]
      simp
    have hgo := levRowGo_entries c r2acc s1 []
    have hcons : levEntries (c :: r2acc) [] s1
        = levRec (c :: r2acc) [] :: (levEntries (c :: r2acc) [] s1).tail := by
      cases s1 <;> simp [levEntries]
    have hstep : ((r2acc.length + 1) :: levRowGo c s1 (levEntries r2acc [] s1) (r2acc.length + 1),
        r2acc.length + 1) = (levEntries (c :: r2acc) [] s1, (c :: r2acc).length) := by
      rw [hcur, hgo, ← hcons, levRec_nil_right]
    rw [List.foldl_cons]
    show List.foldl _
        ((r2acc.length + 1) :: levRowGo c s1 (levEntries r2acc [] s1) (r2acc.length + 1),
          r2acc.length + 1) cs = _
    rw [hstep, ih (c :: r2acc)]
    simp

/-- The row computation of `levenshteinDistance` computes the
structural recurrence on the reversed strings. -/
theorem levenshteinDistance_eq_levRec (s1 s2 : List Char) :
    levenshteinDistance s1 s2 = levRec s2.reverse s1.reverse := by
  have hinit : (List.range (s1.length + 1), 0)
      = (levEntries ([] : List Char) [] s1, ([] : List Char).length) := by
    rw [levEntries_nil]
    simp [List.range_eq_range']
  show (s2.foldl
      (fun (acc : List ℕ × ℕ) c =>
        let i := acc.2 + 1
        (i :: levRowGo c s1 acc.1 i, i))
      (List.range (s1.length + 1), 0)).1.getLastD 0 = levRec s2.reverse s1.reverse
  rw [hinit, levFold_rows s1 s2 []]
  show (levEntries (s2.reverse ++ []) [] s1).getLastD 0 = levRec s2.reverse s1.reverse
  rw [levEntries_getLastD]
  simp

theorem levRec_self (s : List Char) : levRec s s = 0 := by
  induction s with
  | nil => simp [levRec]
  | cons c cs ih => simp [levRec, ih]

theorem levRec_symm (xs ys : List Char) : levRec xs ys = levRec ys xs := by
  induction xs, ys using levRec.induct with
  | case1 ys => rw [levRec_nil_right]; cases ys <;> simp [levRec]
  | case2 xs h =>
    rw [levRec_nil_right]
    cases xs with
    | nil => simp [levRec]
    | cons x xs => simp [levRec]
  | case3 xs y ys ih =>
    simp [levRec, ih]
  | case4 x xs y ys hxy ih1 ih2 ih3 =>
    have hyx : ¬(y = x) := fun h => hxy h.symm
    simp only [levRec, if_neg hxy, if_neg hyx]
    rw [ih1, ih2, ih3]
    omega

theorem levenshteinDistance_self (s : List Char) : levenshteinDistance s s = 0 := by
  rw [levenshteinDistance_eq_levRec, levRec_self]

theorem levenshteinDistance_symm (s t : List Char) :
    levenshteinDistance s t = levenshteinDistance t s := by
  rw [levenshteinDistance_eq_levRec, levenshteinDistance_eq_levRec, levRec_symm]

theorem calculateLevenshteinSimilarity_self (s : List Char) :
    calculateLevenshteinSimilarity s s = 1 := by
  unfold calculateLevenshteinSimilarity
  rw [levenshteinDistance_self]
  by_cases h : max s.length s.length = 0 <;> simp [h]

theorem calculateLevenshteinSimilarity_symm (s t : List Char) :
    calculateLevenshteinSimilarity s t = calculateLevenshteinSimilarity t s := by
  unfold calculateLevenshteinSimilarity
  rw [levenshteinDistance_symm, Nat.max_comm]

/-! ## Longest common substring: length characterization -/

theorem commonRunLen_symm (a : List Char) : ∀ b, commonRunLen a b = commonRunLen b a := by
  induction a with
  | nil => intro b; cases b <;> simp [commonRunLen]
  | cons x xs ih =>
    intro b
    cases b with
    | nil => simp [commonRunLen]
    | cons y ys =>
      by_cases hxy : x = y
      · subst hxy
        simp [commonRunLen, ih]
      · have hyx : ¬(y = x) := fun h => hxy h.symm
        simp [commonRunLen, hxy, hyx]

theorem commonRunLen_self (s : List Char) : commonRunLen s s = s.length := by
  induction s with
  | nil => simp [commonRunLen]
  | cons c cs ih => simp [commonRunLen, ih]

theorem commonRunLen_le_left (a : List Char) : ∀ b, commonRunLen a b ≤ a.length := by
  induction a with
  | nil => intro b; cases b <;> simp [commonRunLen]
  | cons x xs ih =>
    intro b
    cases b with
    | nil => simp [commonRunLen]
    | cons y ys =>
      by_cases hxy : x = y <;> simp [commonRunLen, hxy]
      exact ih ys

/-- Run length at a pair of start positions. -/
def runAt (s1 s2 : List Char) (p : ℕ × ℕ) : ℕ :=
  commonRunLen (s1.drop p.1) (s2.drop p.2)

/-- Start position pairs visited by the nested loops, in order. -/
def lcsPairs (s1 s2 : List Char) : List (ℕ × ℕ) :=
  (List.range s1.length).flatMap (fun i => (List.range s2.length).map (fun j => (i, j)))

theorem mem_lcsPairs (s1 s2 : List Char) (p : ℕ × ℕ) :
    p ∈ lcsPairs s1 s2 ↔ p.1 < s1.length ∧ p.2 < s2.length := by
  cases p with
  | mk i j =>
    simp [lcsPairs, List.mem_flatMap, List.mem_map, List.mem_range]

/-- Running maximum of run lengths over a pair list. -/
def runMax (s1 s2 : List Char) (L : List (ℕ × ℕ)) (n : ℕ) : ℕ :=
  L.foldl (fun m p => max m (runAt s1 s2 p)) n

theorem le_runMax (s1 s2 : List Char) (L : List (ℕ × ℕ)) :
    ∀ n, n ≤ runMax s1 s2 L n := by
  induction L with
  | nil => intro n; simp [runMax]
  | cons p L ih =>
    intro n
    calc n ≤ max n (runAt s1 s2 p) := le_max_left _ _
      _ ≤ runMax s1 s2 L (max n (runAt s1 s2 p)) := ih _
      _ = runMax s1 s2 (p :: L) n := by simp [runMax]

theorem runAt_le_runMax (s1 s2 : List Char) (L : List (ℕ × ℕ)) :
    ∀ n, ∀ p ∈ L, runAt s1 s2 p ≤ runMax s1 s2 L n := by
  induction L with
  | nil => intro n p hp; simp at hp
  | cons q L ih =>
    intro n p hp
    rcases List.mem_cons.mp hp with h | h
    · subst h
      calc runAt s1 s2 p ≤ max n (runAt s1 s2 p) := le_max_right _ _
        _ ≤ runMax s1 s2 L _ := le_runMax _ _ _ _
        _ = runMax s1 s2 (p :: L) n := by simp [runMax]
    · have := ih (max n (runAt s1 s2 q)) p h
      simpa [runMax] using this

theorem runMax_achieved (s1 s2 : List Char) (L : List (ℕ × ℕ)) :
    ∀ n, runMax s1 s2 L n = n ∨ ∃ p ∈ L, runMax s1 s2 L n = runAt s1 s2 p := by
  induction L with
  | nil => intro n; left; simp [runMax]
  | cons q L ih =>
    intro n
    have hstep : runMax s1 s2 (q :: L) n = runMax s1 s2 L (max n (runAt s1 s2 q)) := by
      simp [runMax]
    rcases ih (max n (runAt s1 s2 q)) with h | ⟨p, hp, h⟩
    · rcases Nat.le_total n (runAt s1 s2 q) with hle | hle
      · right
        exact ⟨q, List.mem_cons_self _ _, by rw [hstep, h, Nat.max_eq_right hle]⟩
      · left
        rw [hstep, h, Nat.max_eq_left hle]
    · right
      exact ⟨p, List.mem_cons_of_mem _ hp, by rw [hstep, h]⟩

theorem runMax_le (s1 s2 : List Char) (L : List (ℕ × ℕ)) :
    ∀ n m, n ≤ m → (∀ p ∈ L, runAt s1 s2 p ≤ m) → runMax s1 s2 L n ≤ m := by
  induction L with
  | nil => intro n m h _; simpa [runMax] using h
  | cons q L ih =>
    intro n m hn hall
    have hstep : runMax s1 s2 (q :: L) n = runMax s1 s2 L (max n (runAt s1 s2 q)) := by
      simp [runMax]
    rw [hstep]
    exact ih _ m (max_le hn (hall q (List.mem_cons_self _ _)))
      (fun p hp => hall p (List.mem_cons_of_mem _ hp))

/-- The length of the accumulated candidate follows the running
maximum of run lengths. -/
theorem lcsFold_length (s1 s2 : List Char) (L : List (ℕ × ℕ)) :
    ∀ (cur : List Char),
      (L.foldl (fun longest p =>
        if commonRunLen (s1.drop p.1) (s2.drop p.2) > longest.length then
          (s1.drop p.1).take (commonRunLen (s1.drop p.1) (s2.drop p.2))
        else longest) cur).length = runMax s1 s2 L cur.length := by
  induction L with
  | nil => intro cur; simp [runMax]
  | cons p L ih =>
    intro cur
    rw [List.foldl_cons]
    by_cases h : commonRunLen (s1.drop p.1) (s2.drop p.2) > cur.length
    · rw [if_pos h]
      have hlen : ((s1.drop p.1).take (commonRunLen (s1.drop p.1) (s2.drop p.2))).length
          = commonRunLen (s1.drop p.1) (s2.drop p.2) := by
        rw [List.length_take]
        exact Nat.min_eq_left (commonRunLen_le_left _ _)
      rw [ih, hlen]
      have : max cur.length (runAt s1 s2 p) = runAt s1 s2 p := by
        exact Nat.max_eq_right (Nat.le_of_lt h)
      simp only [runMax, List.foldl_cons]
      rw [this]
      rfl
    · rw [if_neg h]
      rw [ih]
      have : max cur.length (runAt s1 s2 p) = cur.length :=
        Nat.max_eq_left (Nat.le_of_not_lt h)
      simp only [runMax, List.foldl_cons]
      rw [this]

theorem longestCommonSubstring_length (s1 s2 : List Char) :
    (longestCommonSubstring s1 s2).length = runMax s1 s2 (lcsPairs s1 s2) 0 := by
  unfold longestCommonSubstring
  rw [show ((List.range s1.length).flatMap
      (fun i => (List.range s2.length).map (fun j => (i, j)))) = lcsPairs s1 s2 from rfl]
  exact lcsFold_length s1 s2 (lcsPairs s1 s2) []

theorem lcs_length_le (s1 s2 : List Char) :
    (longestCommonSubstring s1 s2).length ≤ runMax s2 s1 (lcsPairs s2 s1) 0 := by
  rw [longestCommonSubstring_length]
  rcases runMax_achieved s1 s2 (lcsPairs s1 s2) 0 with h | ⟨p, hp, h⟩
  · rw [h]; exact Nat.zero_le _
  · rw [h]
    have hmem := (mem_lcsPairs s1 s2 p).mp hp
    have hswap : (p.2, p.1) ∈ lcsPairs s2 s1 :=
      (mem_lcsPairs s2 s1 (p.2, p.1)).mpr ⟨hmem.2, hmem.1⟩
    have hrun : runAt s1 s2 p = runAt s2 s1 (p.2, p.1) := by
      simp [runAt, commonRunLen_symm]
    rw [hrun]
    exact runAt_le_runMax s2 s1 (lcsPairs s2 s1) 0 _ hswap

theorem longestCommonSubstring_length_symm (s1 s2 : List Char) :
    (longestCommonSubstring s1 s2).length = (longestCommonSubstring s2 s1).length := by
  have e1 := longestCommonSubstring_length s1 s2
  have e2 := longestCommonSubstring_length s2 s1
  have h1 := lcs_length_le s1 s2
  have h2 := lcs_length_le s2 s1
  omega

theorem longestCommonSubstring_length_self (s : List Char) :
    (longestCommonSubstring s s).length = s.length := by
  rw [longestCommonSubstring_length]
  apply Nat.le_antisymm
  · apply runMax_le
    · exact Nat.zero_le _
    · intro p _
      have h1 : runAt s s p ≤ (s.drop p.1).length := commonRunLen_le_left _ _
      have h2 : (s.drop p.1).length ≤ s.length := by simp
      omega
  · by_cases h0 : s.length = 0
    · simp [h0]
    · have hmem : ((0 : ℕ), (0 : ℕ)) ∈ lcsPairs s s := by
        rw [mem_lcsPairs]
        exact ⟨Nat.pos_of_ne_zero h0, Nat.pos_of_ne_zero h0⟩
      have hr : runAt s s (0, 0) = s.length := by
        simp [runAt, commonRunLen_self]
      calc s.length = runAt s s (0, 0) := hr.symm
        _ ≤ runMax s s (lcsPairs s s) 0 := runAt_le_runMax s s _ 0 _ hmem

theorem calculateSubstringSimilarity_self (s : List Char) :
    calculateSubstringSimilarity s s = 1 := by
  unfold calculateSubstringSimilarity
  simp only [lt_irrefl, if_false]
  by_cases h : s.length = 0
  · simp [h]
  · rw [if_neg h, longestCommonSubstring_length_self]
    rw [div_self]
    exact_mod_cast h

theorem calculateSubstringSimilarity_symm (s t : List Char) :
    calculateSubstringSimilarity s t = calculateSubstringSimilarity t s := by
  have hlonger : (if s.length > t.length then s else t).length
      = (if t.length > s.length then t else s).length := by
    rcases Nat.lt_trichotomy s.length t.length with h | h | h
    · rw [if_neg (by omega), if_pos h]
    · rw [if_neg (by omega), if_neg (by omega), h]
    · rw [if_pos h, if_neg (by omega)]
  show (if (if s.length > t.length then s else t).length = 0 then (1 : ℚ)
      else ((longestCommonSubstring s t).length : ℚ)
        / ((if s.length > t.length then s else t).length : ℚ))
    = (if (if t.length > s.length then t else s).length = 0 then (1 : ℚ)
      else ((longestCommonSubstring t s).length : ℚ)
        / ((if t.length > s.length then t else s).length : ℚ))
  rw [hlonger, longestCommonSubstring_length_symm]

/-! ## Jaro-Winkler prefix bonus -/

theorem commonPrefixLen_symm (a : List Char) :
    ∀ (b : List Char) (n : ℕ), commonPrefixLen a b n = commonPrefixLen b a n := by
  induction a with
  | nil => intro b n; cases b <;> cases n <;> simp [commonPrefixLen]
  | cons x xs ih =>
    intro b n
    cases b with
    | nil => cases n <;> simp [commonPrefixLen]
    | cons y ys =>
      cases n with
      | zero => simp [commonPrefixLen]
      | succ m =>
        by_cases hxy : x = y
        · subst hxy
          simp [commonPrefixLen, ih]
        · have hyx : ¬(y = x) := fun h => hxy h.symm
          simp [commonPrefixLen, hxy, hyx]

/-! ## Jaro similarity: identity on self-comparison and symmetry

The matching phase of `jaroSimilarity` is characterized per character
by a two-pointer pairing (`tpGo`) of the occurrence positions in the
two strings; the characterization yields both the diagonal behaviour
on self-comparison and the symmetry of the whole score. -/


theorem find?_range'_eq_some (p : ℕ → Bool) :
    ∀ (len a i : ℕ), a ≤ i → i < a + len → p i = true →
      (∀ j, a ≤ j → j < i → p j = false) →
      (List.range' a len).find? p = some i := by
  intro len
  induction len with
  | zero => intro a i h1 h2 _ _; omega
  | succ m ih =>
    intro a i h1 h2 hp hbelow
    cases hpa : p a with
    | true =>
      have hai : a = i := by
        by_contra hne
        have hfa : p a = false := hbelow a le_rfl (by omega)
        rw [hfa] at hpa
        cases hpa
      subst hai
      simp [List.range'_succ, List.find?_cons, hpa]
    | false =>
      have hai : a ≠ i := by
        intro h
        rw [h, hp] at hpa
        cases hpa
      rw [List.range'_succ]
      have hfc : (a :: List.range' (a + 1) m).find? p = (List.range' (a + 1) m).find? p := by
        simp [List.find?_cons, hpa]
      rw [hfc]
      exact ih (a + 1) i (by omega) (by omega) hp (fun j hj1 hj2 => hbelow j (by omega) hj2)

theorem dropWhile_head_false (p : ℕ → Bool) :
    ∀ (L : List ℕ) (q : ℕ) (qs : List ℕ), L.dropWhile p = q :: qs → p q = false := by
  intro L
  induction L with
  | nil => intro q qs h; cases h
  | cons x xs ih =>
    intro q qs h
    by_cases hx : p x
    · rw [List.dropWhile_cons_of_pos hx] at h
      exact ih q qs h
    · rw [List.dropWhile_cons_of_neg hx] at h
      injection h with h1 _
      subst h1
      simpa using hx

def flagLt (n : ℕ) : ℕ → Bool := fun p => decide (p < n)

theorem jaroStart_le (k : ℕ) (mw : Int) (hmw : 0 ≤ mw) : jaroStart k mw ≤ k := by
  unfold jaroStart
  omega

theorem lt_jaroStop (k n : ℕ) (mw : Int) (hmw : 0 ≤ mw) (hk : k < n) : k < jaroStop k mw n := by
  unfold jaroStop
  omega

theorem jaroStep_diag (s : List Char) (mw : Int) (hmw : 0 ≤ mw) (k : ℕ) (hk : k < s.length) :
    jaroStep s s mw ⟨flagLt k, flagLt k, k⟩ k = ⟨flagLt (k + 1), flagLt (k + 1), k + 1⟩ := by
  have hfind : findMatchJ (s.getD k ' ') s (flagLt k) (jaroStart k mw) (jaroStop k mw s.length)
      = some k := by
    unfold findMatchJ
    apply find?_range'_eq_some
    · exact jaroStart_le k mw hmw
    · have h1 := jaroStart_le k mw hmw
      have h2 := lt_jaroStop k s.length mw hmw hk
      omega
    · simp [flagLt]
    · intro j hj1 hj2
      simp [flagLt, hj2]
  unfold jaroStep
  rw [hfind]
  have e1 : (fun p => if p = k then true else flagLt k p) = flagLt (k + 1) := by
    funext p
    by_cases hp : p = k
    · simp [hp, flagLt]
    · simp [hp, flagLt]
      omega
  simp only [e1]

theorem jaroMatch_diag (s : List Char) (mw : Int) (hmw : 0 ≤ mw) :
    ∀ k, k ≤ s.length →
      (List.range k).foldl (jaroStep s s mw) ⟨flagLt 0, flagLt 0, 0⟩
        = ⟨flagLt k, flagLt k, k⟩ := by
  intro k
  induction k with
  | zero => intro _; simp
  | succ m ih =>
    intro hk
    rw [List.range_succ, List.foldl_append, ih (by omega)]
    simp only [List.foldl_cons, List.foldl_nil]
    exact jaroStep_diag s mw hmw m (by omega)

theorem jaroMatch_self (s : List Char) (mw : Int) (hmw : 0 ≤ mw) :
    jaroMatch s s mw = ⟨flagLt s.length, flagLt s.length, s.length⟩ := by
  unfold jaroMatch
  have h0 : (fun _ : ℕ => false) = flagLt 0 := by
    funext p
    simp [flagLt]
  rw [h0]
  exact jaroMatch_diag s mw hmw s.length le_rfl

theorem countMismatches_self (a : List Char) : countMismatches a a = 0 := by
  induction a with
  | nil => simp [countMismatches]
  | cons x xs ih => simpa [countMismatches, List.zip_cons_cons] using ih

theorem jaroSimilarity_self (s : List Char) (h2 : 2 ≤ s.length) :
    jaroSimilarity s s = 1 := by
  have hmw : 0 ≤ jaroMatchWindow s.length s.length := by
    unfold jaroMatchWindow
    omega
  have hm := jaroMatch_self s _ hmw
  have hne : s.length ≠ 0 := by omega
  show (if s.length = 0 ∧ s.length = 0 then (1 : ℚ)
      else if s.length = 0 ∨ s.length = 0 then 0
      else if (jaroMatch s s (jaroMatchWindow s.length s.length)).matchCount = 0 then 0
      else (((jaroMatch s s (jaroMatchWindow s.length s.length)).matchCount : ℚ) / s.length
        + ((jaroMatch s s (jaroMatchWindow s.length s.length)).matchCount : ℚ) / s.length
        + (((jaroMatch s s (jaroMatchWindow s.length s.length)).matchCount : ℚ)
          - (countMismatches
              (matchedChars s (jaroMatch s s (jaroMatchWindow s.length s.length)).m1)
              (matchedChars s (jaroMatch s s (jaroMatchWindow s.length s.length)).m2) : ℚ) / 2)
          / ((jaroMatch s s (jaroMatchWindow s.length s.length)).matchCount : ℚ)) / 3) = 1
  rw [if_neg (fun h => hne h.1), if_neg (fun h => hne (h.elim id id))]
  simp only [hm]
  rw [if_neg hne, countMismatches_self]
  have hq : (s.length : ℚ) ≠ 0 := Nat.cast_ne_zero.mpr hne
  field_simp
  ring

/-- Two-pointer pairing of two position lists within window `w`. -/
def tpGo (w : ℤ) : List ℕ → List ℕ → List (ℕ × ℕ) × List ℕ
  | [], qs => ([], qs)
  | _ :: _, [] => ([], [])
  | p :: ps, q :: qs =>
    if (q : ℤ) < (p : ℤ) - w then tpGo w (p :: ps) qs
    else if (p : ℤ) < (q : ℤ) - w then tpGo w ps (q :: qs)
    else ((p, q) :: (tpGo w ps qs).1, (tpGo w ps qs).2)
  termination_by ps qs => ps.length + qs.length
  decreasing_by all_goals simp_arith

theorem tpGo_swap (w : ℤ) (hw : 0 ≤ w) : ∀ (P Q : List ℕ),
    (tpGo w Q P).1 = ((tpGo w P Q).1).map Prod.swap := by
  intro P Q
  induction P, Q using tpGo.induct w with
  | case1 qs => cases qs <;> simp [tpGo]
  | case2 p ps => simp [tpGo]
  | case3 p ps q qs h ih =>
    have hn : ¬((p : ℤ) < (q : ℤ) - w) := by omega
    conv_lhs => rw [tpGo]
    rw [if_neg hn, if_pos h]
    conv_rhs => rw [tpGo]
    rw [if_pos h]
    exact ih
  | case4 p ps q qs h1 h2 ih =>
    conv_lhs => rw [tpGo]
    rw [if_pos h2]
    conv_rhs => rw [tpGo]
    rw [if_neg h1, if_pos h2]
    exact ih
  | case5 p ps q qs h1 h2 ih =>
    conv_lhs => rw [tpGo]
    rw [if_neg h2, if_neg h1]
    conv_rhs => rw [tpGo]
    rw [if_neg h1, if_neg h2]
    simp [ih]

theorem tpGo_append (w : ℤ) : ∀ (P Q P2 : List ℕ),
    tpGo w (P ++ P2) Q
      = ((tpGo w P Q).1 ++ (tpGo w P2 (tpGo w P Q).2).1, (tpGo w P2 (tpGo w P Q).2).2) := by
  intro P Q
  induction P, Q using tpGo.induct w with
  | case1 qs => intro P2; simp [tpGo]
  | case2 p ps =>
    intro P2
    simp only [tpGo]
    cases hP2 : P2 with
    | nil => simp [tpGo]
    | cons a l => simp [tpGo]
  | case3 p ps q qs h ih =>
    intro P2
    rw [List.cons_append, tpGo, if_pos h, tpGo, if_pos h]
    exact ih P2
  | case4 p ps q qs h1 h2 ih =>
    intro P2
    rw [List.cons_append, tpGo, if_neg h1, if_pos h2, tpGo, if_neg h1, if_pos h2]
    exact ih P2
  | case5 p ps q qs h1 h2 ih =>
    intro P2
    rw [List.cons_append, tpGo, if_neg h1, if_neg h2, tpGo, if_neg h1, if_neg h2]
    simp [ih P2]

theorem tpGo_left_sublist (w : ℤ) : ∀ (P Q : List ℕ), (tpGo w P Q).2.Sublist Q := by
  intro P Q
  induction P, Q using tpGo.induct w with
  | case1 qs => simp [tpGo]
  | case2 p ps => simp [tpGo]
  | case3 p ps q qs h ih =>
    rw [tpGo, if_pos h]
    exact ih.trans (List.sublist_cons_self q qs)
  | case4 p ps q qs h1 h2 ih =>
    rw [tpGo, if_neg h1, if_pos h2]
    exact ih
  | case5 p ps q qs h1 h2 ih =>
    rw [tpGo, if_neg h1, if_neg h2]
    exact ih.trans (List.sublist_cons_self q qs)

theorem tpGo_dropped_dead (w : ℤ) : ∀ (P Q : List ℕ) (x : ℕ),
    x ∈ Q → x ∉ ((tpGo w P Q).1).map Prod.snd → x ∉ (tpGo w P Q).2 →
      ∃ p ∈ P, (x : ℤ) < (p : ℤ) - w := by
  intro P Q
  induction P, Q using tpGo.induct w with
  | case1 qs => intro x hx h1 h2; rw [tpGo] at h2; exact absurd hx h2
  | case2 p ps => intro x hx _ _; cases hx
  | case3 p ps q qs h ih =>
    intro x hx h1 h2
    rw [tpGo, if_pos h] at h1 h2
    rcases List.mem_cons.mp hx with hx | hx
    · exact ⟨p, List.mem_cons_self p ps, by omega⟩
    · exact ih x hx h1 h2
  | case4 p ps q qs h1 h2 ih =>
    intro x hx hm hl
    rw [tpGo, if_neg h1, if_pos h2] at hm hl
    obtain ⟨p', hp', hw⟩ := ih x hx hm hl
    exact ⟨p', List.mem_cons_of_mem _ hp', hw⟩
  | case5 p ps q qs h1 h2 ih =>
    intro x hx hm hl
    rw [tpGo, if_neg h1, if_neg h2] at hm hl
    simp only [List.map_cons, List.mem_cons] at hm
    push_neg at hm
    rcases List.mem_cons.mp hx with hx | hx
    · exact absurd hx hm.1
    · obtain ⟨p', hp', hw⟩ := ih x hx hm.2 hl
      exact ⟨p', List.mem_cons_of_mem _ hp', hw⟩

theorem tpGo_snd_not_left (w : ℤ) : ∀ (P Q : List ℕ), Q.Pairwise (· < ·) →
    ∀ x ∈ ((tpGo w P Q).1).map Prod.snd, x ∉ (tpGo w P Q).2 := by
  intro P Q
  induction P, Q using tpGo.induct w with
  | case1 qs => simp [tpGo]
  | case2 p ps => simp [tpGo]
  | case3 p ps q qs h ih =>
    intro hsort
    rw [tpGo, if_pos h]
    exact ih (List.Pairwise.of_cons hsort)
  | case4 p ps q qs h1 h2 ih =>
    intro hsort
    rw [tpGo, if_neg h1, if_pos h2]
    exact ih hsort
  | case5 p ps q qs h1 h2 ih =>
    intro hsort
    rw [tpGo, if_neg h1, if_neg h2]
    intro x hx
    simp only [List.map_cons, List.mem_cons] at hx
    rcases hx with hx | hx
    · subst hx
      intro hmem
      have hsub := tpGo_left_sublist w ps qs
      have : x ∈ qs := hsub.mem hmem
      have := (List.pairwise_cons.mp hsort).1 x this
      omega
    · exact ih (List.Pairwise.of_cons hsort) x hx

theorem tpGo_single (w : ℤ) (k : ℕ) : ∀ (L : List ℕ),
    tpGo w [k] L
      = (match L.dropWhile (fun (q : ℕ) => decide ((q : ℤ) < (k : ℤ) - w)) with
        | [] => ([], [])
        | q :: qs => if (k : ℤ) < (q : ℤ) - w then ([], q :: qs) else ([(k, q)], qs)) := by
  intro L
  induction L with
  | nil => simp [tpGo]
  | cons q qs ih =>
    by_cases hq : (q : ℤ) < (k : ℤ) - w
    · rw [tpGo, if_pos hq, ih, List.dropWhile_cons_of_pos (by simpa using hq)]
    · rw [tpGo, if_neg hq, List.dropWhile_cons_of_neg (by simpa using hq)]
      by_cases hk : (k : ℤ) < (q : ℤ) - w
      · rw [if_pos hk]
        simp [tpGo, hk]
      · rw [if_neg hk]
        simp [tpGo, hk]

/-- Positions of character `c` in `s` below index `k`, in increasing order. -/
def posOfLt (c : Char) (s : List Char) (k : ℕ) : List ℕ :=
  (List.range k).filter (fun i => s.getD i ' ' = c)

/-- All positions of character `c` in `s`. -/
def posOf (c : Char) (s : List Char) : List ℕ := posOfLt c s s.length

theorem mem_posOfLt (c : Char) (s : List Char) (k j : ℕ) :
    j ∈ posOfLt c s k ↔ j < k ∧ s.getD j ' ' = c := by
  simp [posOfLt, List.mem_filter, List.mem_range]

theorem posOfLt_sorted (c : Char) (s : List Char) (k : ℕ) :
    (posOfLt c s k).Pairwise (· < ·) :=
  List.Pairwise.filter _ (List.pairwise_lt_range k)

theorem posOfLt_succ (c : Char) (s : List Char) (k : ℕ) :
    posOfLt c s (k + 1)
      = posOfLt c s k ++ (if s.getD k ' ' = c then [k] else []) := by
  unfold posOfLt
  rw [List.range_succ, List.filter_append]
  congr 1
  by_cases h : s.getD k ' ' = c
  · rw [if_pos h, List.filter_cons_of_pos (by simpa using h), List.filter_nil]
  · rw [if_neg h, List.filter_cons_of_neg (by simpa using h), List.filter_nil]

/-- Per-character pair list reached after the first `k` outer iterations. -/
def tpPairs (w : ℤ) (s1 s2 : List Char) (k : ℕ) (c : Char) : List (ℕ × ℕ) :=
  (tpGo w (posOfLt c s1 k) (posOf c s2)).1

/-- Per-character unconsumed suffix of candidate positions after `k` iterations. -/
def tpLeft (w : ℤ) (s1 s2 : List Char) (k : ℕ) (c : Char) : List ℕ :=
  (tpGo w (posOfLt c s1 k) (posOf c s2)).2

/-- Closed form of the matching-phase state after `k` outer iterations. -/
def jaroInvState (w : ℤ) (s1 s2 : List Char) (k : ℕ) : JaroState :=
  ⟨fun p => decide (p ∈ (tpPairs w s1 s2 k (s1.getD p ' ')).map Prod.fst),
   fun q => decide (q ∈ (tpPairs w s1 s2 k (s2.getD q ' ')).map Prod.snd),
   (s1.toFinset).sum (fun c => (tpPairs w s1 s2 k c).length)⟩

theorem jaroInv_window_mem (s1 s2 : List Char) (w : ℤ) (k j : ℕ)
    (hstart : jaroStart k w ≤ j) (hstop : j < jaroStop k w s2.length) :
    ((!(decide (j ∈ (tpPairs w s1 s2 k (s2.getD j ' ')).map Prod.snd))
        && decide (s2.getD j ' ' = s1.getD k ' ')) = true)
      ↔ j ∈ tpLeft w s1 s2 k (s1.getD k ' ') := by
  constructor
  · intro h
    rw [Bool.and_eq_true, Bool.not_eq_true', decide_eq_false_iff_not, decide_eq_true_eq] at h
    obtain ⟨hflag, hchar⟩ := h
    rw [hchar] at hflag
    rw [tpPairs] at hflag
    have hjlen : j < s2.length := by
      have : jaroStop k w s2.length ≤ s2.length := by
        unfold jaroStop
        omega
      omega
    have hjQ : j ∈ posOf (s1.getD k ' ') s2 := by
      rw [posOf, mem_posOfLt]
      exact ⟨hjlen, hchar⟩
    rw [tpLeft]
    by_contra hnotL
    obtain ⟨p, hpP, hpw⟩ := tpGo_dropped_dead w _ _ j hjQ hflag hnotL
    have hpk : p < k := ((mem_posOfLt _ _ _ _).mp hpP).1
    have hjge : (k : ℤ) - w ≤ (j : ℤ) := by
      unfold jaroStart at hstart
      omega
    omega
  · intro hL
    rw [tpLeft] at hL
    have hsub := tpGo_left_sublist w (posOfLt (s1.getD k ' ') s1 k) (posOf (s1.getD k ' ') s2)
    have hjQ : j ∈ posOf (s1.getD k ' ') s2 := hsub.subset hL
    have hchar : s2.getD j ' ' = s1.getD k ' ' := ((mem_posOfLt _ _ _ _).mp hjQ).2
    have hflag : j ∉ (tpPairs w s1 s2 k (s2.getD j ' ')).map Prod.snd := by
      rw [hchar, tpPairs]
      intro hmem
      exact tpGo_snd_not_left w _ _ (posOfLt_sorted _ _ _) j hmem hL
    rw [Bool.and_eq_true, Bool.not_eq_true', decide_eq_false_iff_not, decide_eq_true_eq]
    exact ⟨hflag, hchar⟩

/-- The inner scan of the matching phase, run from the invariant state,
finds exactly the head of the unconsumed live suffix for the current
character, when that head lies inside the window. -/
theorem findMatchJ_inv (s1 s2 : List Char) (w : ℤ) (k : ℕ) :
    findMatchJ (s1.getD k ' ') s2 (jaroInvState w s1 s2 k).m2 (jaroStart k w)
        (jaroStop k w s2.length)
      = (match (tpLeft w s1 s2 k (s1.getD k ' ')).dropWhile
            (fun (q : ℕ) => decide ((q : ℤ) < (k : ℤ) - w)) with
        | [] => none
        | q0 :: _ => if (k : ℤ) < (q0 : ℤ) - w then none else some q0) := by
  have hQsorted : (posOf (s1.getD k ' ') s2).Pairwise (· < ·) := posOfLt_sorted _ _ _
  have hLsub : (tpLeft w s1 s2 k (s1.getD k ' ')).Sublist (posOf (s1.getD k ' ') s2) := by
    rw [tpLeft]
    exact tpGo_left_sublist w _ _
  have hLsorted : (tpLeft w s1 s2 k (s1.getD k ' ')).Pairwise (· < ·) :=
    List.Pairwise.sublist hLsub hQsorted
  have hstart_int : ((jaroStart k w : ℕ) : ℤ) = max 0 ((k : ℤ) - w) := by
    unfold jaroStart
    omega
  have hmemL_decomp : ∀ j, j ∈ tpLeft w s1 s2 k (s1.getD k ' ') →
      jaroStart k w ≤ j →
      j ∈ (tpLeft w s1 s2 k (s1.getD k ' ')).dropWhile
        (fun (q : ℕ) => decide ((q : ℤ) < (k : ℤ) - w)) := by
    intro j hjL hjstart
    have := List.takeWhile_append_dropWhile
      (p := fun (q : ℕ) => decide ((q : ℤ) < (k : ℤ) - w))
      (l := tpLeft w s1 s2 k (s1.getD k ' '))
    rw [← this] at hjL
    rcases List.mem_append.mp hjL with hj | hj
    · have := List.mem_takeWhile_imp hj
      simp only [decide_eq_true_eq] at this
      omega
    · exact hj
  unfold findMatchJ
  cases hD : (tpLeft w s1 s2 k (s1.getD k ' ')).dropWhile
      (fun (q : ℕ) => decide ((q : ℤ) < (k : ℤ) - w)) with
  | nil =>
    apply List.find?_eq_none.mpr
    intro j hj
    rw [List.mem_range'_1] at hj
    have hjstop : j < jaroStop k w s2.length := by omega
    intro hpred
    have hjL := (jaroInv_window_mem s1 s2 w k j hj.1 hjstop).mp hpred
    have := hmemL_decomp j hjL hj.1
    rw [hD] at this
    cases this
  | cons q0 D2 =>
    have hq0L : q0 ∈ tpLeft w s1 s2 k (s1.getD k ' ') :=
      (List.dropWhile_sublist _).subset (hD ▸ List.mem_cons_self q0 D2)
    have hq0ge : ¬ ((q0 : ℤ) < (k : ℤ) - w) := by
      have := dropWhile_head_false _ _ _ _ hD
      simpa using this
    have hq0len : q0 < s2.length :=
      ((mem_posOfLt _ _ _ _).mp (hLsub.subset hq0L)).1
    have hDsorted : (q0 :: D2).Pairwise (· < ·) :=
      hD ▸ List.Pairwise.sublist (List.dropWhile_sublist _) hLsorted
    show _ = if (k : ℤ) < (q0 : ℤ) - w then none else some q0
    by_cases hq0 : (k : ℤ) < (q0 : ℤ) - w
    · rw [if_pos hq0]
      apply List.find?_eq_none.mpr
      intro j hj
      rw [List.mem_range'_1] at hj
      have hjstop : j < jaroStop k w s2.length := by omega
      intro hpred
      have hjL := (jaroInv_window_mem s1 s2 w k j hj.1 hjstop).mp hpred
      have hjD := hmemL_decomp j hjL hj.1
      rw [hD] at hjD
      have hjge : q0 ≤ j := by
        rcases List.mem_cons.mp hjD with h | h
        · omega
        · exact Nat.le_of_lt ((List.pairwise_cons.mp hDsorted).1 j h)
      have hjle : (j : ℤ) ≤ (k : ℤ) + w := by
        unfold jaroStop at hjstop
        omega
      omega
    · rw [if_neg hq0]
      have hq0start : jaroStart k w ≤ q0 := by omega
      have hq0stop : q0 < jaroStop k w s2.length := by
        unfold jaroStop
        omega
      apply find?_range'_eq_some
      · exact hq0start
      · omega
      · exact (jaroInv_window_mem s1 s2 w k q0 hq0start hq0stop).mpr hq0L
      · intro j hj1 hj2
        by_contra hpred
        rw [Bool.not_eq_false] at hpred
        have hjstop : j < jaroStop k w s2.length := by omega
        have hjL := (jaroInv_window_mem s1 s2 w k j hj1 hjstop).mp hpred
        have hjD := hmemL_decomp j hjL hj1
        rw [hD] at hjD
        rcases List.mem_cons.mp hjD with h | h
        · omega
        · have := (List.pairwise_cons.mp hDsorted).1 j h
          omega

theorem jaroStep_inv (s1 s2 : List Char) (w : ℤ) (k : ℕ) (hk : k < s1.length) :
    jaroStep s1 s2 w (jaroInvState w s1 s2 k) k = jaroInvState w s1 s2 (k + 1) := by
  have hck_pairs : tpPairs w s1 s2 (k + 1) (s1.getD k ' ')
      = tpPairs w s1 s2 k (s1.getD k ' ')
        ++ (tpGo w [k] (tpLeft w s1 s2 k (s1.getD k ' '))).1 := by
    simp only [tpPairs, tpLeft]
    rw [posOfLt_succ, if_pos rfl, tpGo_append]
  have hother : ∀ c, c ≠ s1.getD k ' ' → tpPairs w s1 s2 (k + 1) c = tpPairs w s1 s2 k c := by
    intro c hc
    simp only [tpPairs]
    rw [posOfLt_succ, if_neg (fun h => hc h.symm), List.append_nil]
  have hsingle := tpGo_single w k (tpLeft w s1 s2 k (s1.getD k ' '))
  have hfind := findMatchJ_inv s1 s2 w k
  have hckmem : s1.getD k ' ' ∈ s1.toFinset := by
    rw [List.mem_toFinset, List.getD_eq_getElem s1 ' ' hk]
    exact List.getElem_mem hk
  have hLsub : (tpLeft w s1 s2 k (s1.getD k ' ')).Sublist (posOf (s1.getD k ' ') s2) := by
    rw [tpLeft]
    exact tpGo_left_sublist w _ _
  cases hD : (tpLeft w s1 s2 k (s1.getD k ' ')).dropWhile
      (fun (q : ℕ) => decide ((q : ℤ) < (k : ℤ) - w)) with
  | nil =>
    simp only [hD] at hsingle hfind
    have hpairs_all : ∀ c, tpPairs w s1 s2 (k + 1) c = tpPairs w s1 s2 k c := by
      intro c
      by_cases hc : c = s1.getD k ' '
      · rw [hc, hck_pairs, hsingle, List.append_nil]
      · exact hother c hc
    unfold jaroStep
    rw [hfind]
    show jaroInvState w s1 s2 k = jaroInvState w s1 s2 (k + 1)
    simp only [jaroInvState, hpairs_all]
  | cons q0 D2 =>
    simp only [hD] at hsingle hfind
    have hq0L : q0 ∈ tpLeft w s1 s2 k (s1.getD k ' ') :=
      (List.dropWhile_sublist _).subset (hD ▸ List.mem_cons_self q0 D2)
    have hq0char : s2.getD q0 ' ' = s1.getD k ' ' :=
      ((mem_posOfLt _ _ _ _).mp (hLsub.subset hq0L)).2
    by_cases hq0 : (k : ℤ) < (q0 : ℤ) - w
    · rw [if_pos hq0] at hsingle hfind
      have hpairs_all : ∀ c, tpPairs w s1 s2 (k + 1) c = tpPairs w s1 s2 k c := by
        intro c
        by_cases hc : c = s1.getD k ' '
        · rw [hc, hck_pairs, hsingle, List.append_nil]
        · exact hother c hc
      unfold jaroStep
      rw [hfind]
      show jaroInvState w s1 s2 k = jaroInvState w s1 s2 (k + 1)
      simp only [jaroInvState, hpairs_all]
    · rw [if_neg hq0] at hsingle hfind
      have hpairs_ck : tpPairs w s1 s2 (k + 1) (s1.getD k ' ')
          = tpPairs w s1 s2 k (s1.getD k ' ') ++ [(k, q0)] := by
        rw [hck_pairs, hsingle]
      have hsum : (s1.toFinset).sum (fun c => (tpPairs w s1 s2 (k + 1) c).length)
          = (s1.toFinset).sum (fun c => (tpPairs w s1 s2 k c).length) + 1 := by
        rw [← Finset.add_sum_erase _ (fun c => (tpPairs w s1 s2 (k + 1) c).length) hckmem,
          ← Finset.add_sum_erase _ (fun c => (tpPairs w s1 s2 k c).length) hckmem]
        have h1 : (tpPairs w s1 s2 (k + 1) (s1.getD k ' ')).length
            = (tpPairs w s1 s2 k (s1.getD k ' ')).length + 1 := by
          rw [hpairs_ck]
          simp
        have h2 : (s1.toFinset.erase (s1.getD k ' ')).sum
              (fun c => (tpPairs w s1 s2 (k + 1) c).length)
            = (s1.toFinset.erase (s1.getD k ' ')).sum
              (fun c => (tpPairs w s1 s2 k c).length) :=
          Finset.sum_congr rfl (fun c hc => by rw [hother c (Finset.ne_of_mem_erase hc)])
        omega
      unfold jaroStep
      rw [hfind]
      show ({ m1 := fun p => if p = k then true else (jaroInvState w s1 s2 k).m1 p
              m2 := fun q => if q = q0 then true else (jaroInvState w s1 s2 k).m2 q
              matchCount := (jaroInvState w s1 s2 k).matchCount + 1 } : JaroState)
          = jaroInvState w s1 s2 (k + 1)
      simp only [jaroInvState]
      congr 1
      · funext p
        by_cases hp : p = k
        · subst hp
          have hmem : p ∈ (tpPairs w s1 s2 (p + 1) (s1.getD p ' ')).map Prod.fst := by
            rw [hpairs_ck]
            simp
          rw [if_pos rfl]
          exact (decide_eq_true hmem).symm
        · rw [if_neg hp]
          by_cases hcp : s1.getD p ' ' = s1.getD k ' '
          · rw [hcp, hpairs_ck]
            simp [hp]
          · rw [hother _ hcp]
      · funext q
        by_cases hq : q = q0
        · subst hq
          have hmem : q ∈ (tpPairs w s1 s2 (k + 1) (s2.getD q ' ')).map Prod.snd := by
            rw [hq0char, hpairs_ck]
            simp
          rw [if_pos rfl]
          exact (decide_eq_true hmem).symm
        · rw [if_neg hq]
          by_cases hcq : s2.getD q ' ' = s1.getD k ' '
          · rw [hcq, hpairs_ck]
            simp [hq]
          · rw [hother _ hcq]
      · exact hsum.symm

theorem jaroMatch_inv (s1 s2 : List Char) (w : ℤ) :
    ∀ k, k ≤ s1.length →
      (List.range k).foldl (jaroStep s1 s2 w) ⟨fun _ => false, fun _ => false, 0⟩
        = jaroInvState w s1 s2 k := by
  intro k
  induction k with
  | zero =>
    intro _
    have hnil : ∀ c, tpPairs w s1 s2 0 c = [] := by
      intro c
      simp [tpPairs, posOfLt, tpGo]
    simp only [List.range_zero, List.foldl_nil, jaroInvState, hnil]
    refine congrArg₂ (JaroState.mk (fun _ => false)) ?_ ?_
    · funext q
      simp
    · simp
  | succ m ih =>
    intro hm
    rw [List.range_succ, List.foldl_append, ih (by omega)]
    simp only [List.foldl_cons, List.foldl_nil]
    exact jaroStep_inv s1 s2 w m (by omega)

theorem jaroMatch_eq_inv (s1 s2 : List Char) (w : ℤ) :
    jaroMatch s1 s2 w = jaroInvState w s1 s2 s1.length := by
  unfold jaroMatch
  exact jaroMatch_inv s1 s2 w s1.length le_rfl

theorem posOf_eq_nil_of_not_mem (c : Char) (s : List Char) (h : c ∉ s) :
    posOf c s = [] := by
  rw [posOf, posOfLt, List.filter_eq_nil_iff]
  intro i hi
  rw [List.mem_range] at hi
  simp only [decide_eq_true_eq]
  intro hc
  apply h
  rw [← hc, List.getD_eq_getElem s ' ' hi]
  exact List.getElem_mem hi

theorem tpGo_fst_nil (w : ℤ) (P : List ℕ) : (tpGo w P []).1 = [] := by
  cases P <;> simp [tpGo]

/-- The two runs of the matching phase produce mirrored flags and the
same match count. -/
theorem jaroMatch_symm (s1 s2 : List Char) (w : ℤ) (hw : 0 ≤ w) :
    jaroMatch s2 s1 w
      = ⟨(jaroMatch s1 s2 w).m2, (jaroMatch s1 s2 w).m1, (jaroMatch s1 s2 w).matchCount⟩ := by
  rw [jaroMatch_eq_inv, jaroMatch_eq_inv]
  have hswap : ∀ c, tpPairs w s2 s1 s2.length c
      = (tpPairs w s1 s2 s1.length c).map Prod.swap := by
    intro c
    simp only [tpPairs]
    have h1 : posOfLt c s2 s2.length = posOf c s2 := rfl
    have h2 : posOfLt c s1 s1.length = posOf c s1 := rfl
    rw [h1, h2]
    exact tpGo_swap w hw (posOf c s1) (posOf c s2)
  simp only [jaroInvState]
  congr 1
  · funext q
    rw [hswap]
    simp [List.map_map, Function.comp_def, Prod.swap]
  · funext p
    rw [hswap]
    simp [List.map_map, Function.comp_def, Prod.swap]
  · have hlen : ∀ c, (tpPairs w s2 s1 s2.length c).length
        = (tpPairs w s1 s2 s1.length c).length := by
      intro c
      rw [hswap]
      simp
    have hA2 : ∀ c ∈ s1.toFinset ∪ s2.toFinset, c ∉ s2.toFinset →
        (tpPairs w s1 s2 s1.length c).length = 0 := by
      intro c _ hc
      rw [List.mem_toFinset] at hc
      simp [tpPairs, posOf_eq_nil_of_not_mem c s2 hc, tpGo_fst_nil]
    have hA1 : ∀ c ∈ s1.toFinset ∪ s2.toFinset, c ∉ s1.toFinset →
        (tpPairs w s1 s2 s1.length c).length = 0 := by
      intro c _ hc
      rw [List.mem_toFinset] at hc
      have hnil : posOfLt c s1 s1.length = [] := posOf_eq_nil_of_not_mem c s1 hc
      simp [tpPairs, hnil, tpGo]
    calc (s2.toFinset).sum (fun c => (tpPairs w s2 s1 s2.length c).length)
        = (s2.toFinset).sum (fun c => (tpPairs w s1 s2 s1.length c).length) :=
          Finset.sum_congr rfl (fun c _ => hlen c)
      _ = (s1.toFinset ∪ s2.toFinset).sum (fun c => (tpPairs w s1 s2 s1.length c).length) :=
          Finset.sum_subset Finset.subset_union_right hA2
      _ = (s1.toFinset).sum (fun c => (tpPairs w s1 s2 s1.length c).length) :=
          (Finset.sum_subset Finset.subset_union_left hA1).symm

theorem jaroStep_neg (s1 s2 : List Char) (w : ℤ) (hw : w < 0) (st : JaroState) (i : ℕ) :
    jaroStep s1 s2 w st i = st := by
  unfold jaroStep
  have hnone : findMatchJ (s1.getD i ' ') s2 st.m2 (jaroStart i w) (jaroStop i w s2.length)
      = none := by
    unfold findMatchJ
    have hz : jaroStop i w s2.length - jaroStart i w = 0 := by
      unfold jaroStop jaroStart
      omega
    rw [hz]
    rfl
  rw [hnone]

theorem jaroMatch_neg (s1 s2 : List Char) (w : ℤ) (hw : w < 0) :
    jaroMatch s1 s2 w = ⟨fun _ => false, fun _ => false, 0⟩ := by
  unfold jaroMatch
  have hfix : ∀ (l : List ℕ) (st : JaroState), l.foldl (jaroStep s1 s2 w) st = st := by
    intro l
    induction l with
    | nil => intro st; rfl
    | cons a l ih =>
      intro st
      rw [List.foldl_cons, jaroStep_neg s1 s2 w hw st a]
      exact ih st
  exact hfix _ _

theorem countMismatches_comm (a b : List Char) : countMismatches a b = countMismatches b a := by
  unfold countMismatches
  rw [← List.zip_swap a b, List.filter_map, List.length_map]
  congr 1
  apply List.filter_congr
  intro x _
  cases x with
  | mk u v =>
    simp [Prod.swap]
    exact eq_comm

theorem jaroSimilarity_def (s1 s2 : List Char) :
    jaroSimilarity s1 s2
      = if s1.length = 0 ∧ s2.length = 0 then (1 : ℚ)
        else if s1.length = 0 ∨ s2.length = 0 then 0
        else if (jaroMatch s1 s2 (jaroMatchWindow s1.length s2.length)).matchCount = 0 then 0
        else (((jaroMatch s1 s2 (jaroMatchWindow s1.length s2.length)).matchCount : ℚ) / s1.length
          + ((jaroMatch s1 s2 (jaroMatchWindow s1.length s2.length)).matchCount : ℚ) / s2.length
          + (((jaroMatch s1 s2 (jaroMatchWindow s1.length s2.length)).matchCount : ℚ)
            - (countMismatches
                (matchedChars s1 (jaroMatch s1 s2 (jaroMatchWindow s1.length s2.length)).m1)
                (matchedChars s2 (jaroMatch s1 s2 (jaroMatchWindow s1.length s2.length)).m2) : ℚ)
              / 2)
            / ((jaroMatch s1 s2 (jaroMatchWindow s1.length s2.length)).matchCount : ℚ)) / 3 := rfl

theorem jaroSimilarity_symm (s1 s2 : List Char) :
    jaroSimilarity s1 s2 = jaroSimilarity s2 s1 := by
  rw [jaroSimilarity_def s1 s2, jaroSimilarity_def s2 s1]
  have hmw : jaroMatchWindow s2.length s1.length = jaroMatchWindow s1.length s2.length := by
    unfold jaroMatchWindow
    rw [Nat.max_comm]
  rw [hmw]
  by_cases h1 : s1.length = 0
  · by_cases h2 : s2.length = 0
    · rw [if_pos ⟨h1, h2⟩, if_pos ⟨h2, h1⟩]
    · rw [if_neg (show ¬(s1.length = 0 ∧ s2.length = 0) from fun h => h2 h.2),
        if_pos (show s1.length = 0 ∨ s2.length = 0 from Or.inl h1)]
      rw [if_neg (show ¬(s2.length = 0 ∧ s1.length = 0) from fun h => h2 h.1),
        if_pos (show s2.length = 0 ∨ s1.length = 0 from Or.inr h1)]
  · by_cases h2 : s2.length = 0
    · rw [if_neg (show ¬(s1.length = 0 ∧ s2.length = 0) from fun h => h1 h.1),
        if_pos (show s1.length = 0 ∨ s2.length = 0 from Or.inr h2)]
      rw [if_neg (show ¬(s2.length = 0 ∧ s1.length = 0) from fun h => h1 h.2),
        if_pos (show s2.length = 0 ∨ s1.length = 0 from Or.inl h2)]
    · rw [if_neg (show ¬(s1.length = 0 ∧ s2.length = 0) from fun h => h1 h.1),
        if_neg (show ¬(s1.length = 0 ∨ s2.length = 0) from fun h => h.elim h1 h2)]
      rw [if_neg (show ¬(s2.length = 0 ∧ s1.length = 0) from fun h => h1 h.2),
        if_neg (show ¬(s2.length = 0 ∨ s1.length = 0) from fun h => h.elim h2 h1)]
      by_cases hw : 0 ≤ jaroMatchWindow s1.length s2.length
      · rw [jaroMatch_symm s1 s2 _ hw]
        simp only []
        by_cases hn : (jaroMatch s1 s2 (jaroMatchWindow s1.length s2.length)).matchCount = 0
        · rw [if_pos hn, if_pos hn]
        · rw [if_neg hn, if_neg hn]
          rw [countMismatches_comm]
          ring
      · push_neg at hw
        rw [jaroMatch_neg s1 s2 _ hw, jaroMatch_neg s2 s1 _ hw]
        simp

theorem jaroSimilarity_nil : jaroSimilarity [] [] = 1 := by
  show (if ([] : List Char).length = 0 ∧ ([] : List Char).length = 0 then (1 : ℚ) else _) = 1
  rw [if_pos ⟨rfl, rfl⟩]

theorem jaroSimilarity_single : jaroSimilarity "a".toList "a".toList = 0 := rfl

theorem calculateJaroWinklerSimilarity_self_of_two_le (s : List Char) (h2 : 2 ≤ s.length) :
    calculateJaroWinklerSimilarity s s = 1 := by
  have hj := jaroSimilarity_self s h2
  show (if jaroSimilarity s s < 7 / 10 then jaroSimilarity s s
      else jaroSimilarity s s + (1 / 10) * (commonPrefixLen s s 4 : ℚ) * (1 - jaroSimilarity s s))
    = 1
  rw [hj, if_neg (by norm_num)]
  ring

theorem calculateJaroWinklerSimilarity_nil : calculateJaroWinklerSimilarity [] [] = 1 := by
  have hj := jaroSimilarity_nil
  show (if jaroSimilarity [] [] < 7 / 10 then jaroSimilarity [] []
      else jaroSimilarity [] []
        + (1 / 10) * (commonPrefixLen [] [] 4 : ℚ) * (1 - jaroSimilarity [] [])) = 1
  rw [hj, if_neg (by norm_num)]
  show (1 : ℚ) + 1 / 10 * ((0 : ℕ) : ℚ) * (1 - 1) = 1
  norm_num

theorem calculateJaroWinklerSimilarity_single :
    calculateJaroWinklerSimilarity "a".toList "a".toList = 0 := by
  show (if jaroSimilarity "a".toList "a".toList < 7 / 10 then jaroSimilarity "a".toList "a".toList
      else jaroSimilarity "a".toList "a".toList
        + (1 / 10) * (commonPrefixLen "a".toList "a".toList 4 : ℚ)
          * (1 - jaroSimilarity "a".toList "a".toList)) = 0
  rw [jaroSimilarity_single, if_pos (by norm_num)]

theorem calculateJaroWinklerSimilarity_symm (s1 s2 : List Char) :
    calculateJaroWinklerSimilarity s1 s2 = calculateJaroWinklerSimilarity s2 s1 := by
  show (if jaroSimilarity s1 s2 < 7 / 10 then jaroSimilarity s1 s2
      else jaroSimilarity s1 s2
        + (1 / 10) * (commonPrefixLen s1 s2 4 : ℚ) * (1 - jaroSimilarity s1 s2))
    = (if jaroSimilarity s2 s1 < 7 / 10 then jaroSimilarity s2 s1
      else jaroSimilarity s2 s1
        + (1 / 10) * (commonPrefixLen s2 s1 4 : ℚ) * (1 - jaroSimilarity s2 s1))
  rw [jaroSimilarity_symm s1 s2, commonPrefixLen_symm s1 s2]

/-! ## C6 and C7: lexical score identity and symmetry -/

theorem textScoreOf_symm (a b : List Char) : textScoreOf a b = textScoreOf b a := by
  unfold textScoreOf
  rw [calculateLevenshteinSimilarity_symm, calculateJaroWinklerSimilarity_symm,
    calculateSubstringSimilarity_symm]

/-- C6 (counterexample): the non-empty string `"a"` scores strictly
below `1` against itself.  Its normalized form has length `1`, the
match window `floor(1/2) - 1` is `-1`, so the Jaro scan window is empty
and the Jaro-Winkler part is `0`; the combined score is
`0.4 * 1 + 0.4 * 0 + 0.2 * 1 = 3/5`, not `1`. -/
theorem lexicalScore_singleton_ne_one :
    "a".toList ≠ [] ∧ lexicalScore "a".toList "a".toList = 3 / 5 ∧ ((3 : ℚ) / 5) ≠ 1 := by
  refine ⟨by decide, ?_, by norm_num⟩
  have hn : normalizeText "a".toList = "a".toList := by decide
  unfold lexicalScore textScoreOf
  rw [hn, calculateLevenshteinSimilarity_self, calculateJaroWinklerSimilarity_single,
    calculateSubstringSimilarity_self]
  norm_num

/-- C6 (amended): the combined lexical score of a string against itself
equals exactly `1` whenever its normalized form does not have length
exactly one — that is, for every string whose normalized form is empty
or has at least two characters.  Strings whose normalized form is a
single character are the exception: their Jaro match window is `-1`, so
they score `3/5` against themselves. -/
theorem lexicalScore_self (a : List Char) (h : (normalizeText a).length ≠ 1) :
    lexicalScore a a = 1 := by
  unfold lexicalScore textScoreOf
  rcases Nat.lt_or_ge (normalizeText a).length 2 with hlt | hge
  · have h0 : (normalizeText a).length = 0 := by omega
    have hnil : normalizeText a = [] := List.length_eq_zero.mp h0
    rw [hnil, calculateLevenshteinSimilarity_self, calculateJaroWinklerSimilarity_nil,
      calculateSubstringSimilarity_self]
    norm_num
  · rw [calculateLevenshteinSimilarity_self,
      calculateJaroWinklerSimilarity_self_of_two_le _ hge, calculateSubstringSimilarity_self]
    norm_num

/-- Witness for C6: the concrete string `"ab"` normalizes to itself,
has normalized length two, and scores exactly `1` against itself. -/
theorem lexicalScore_self_witness :
    (normalizeText "ab".toList).length ≠ 1 ∧ lexicalScore "ab".toList "ab".toList = 1 :=
  ⟨by decide, lexicalScore_self "ab".toList (by decide)⟩

/-- C7: the combined lexical score is symmetric,
`lexicalScore(a,b) = lexicalScore(b,a)`, and each of the three
sub-measures — Levenshtein similarity, Jaro-Winkler similarity and
longest-common-substring similarity — is itself symmetric in its two
arguments. -/
theorem lexicalScore_symm (a b : List Char) :
    lexicalScore a b = lexicalScore b a
      ∧ calculateLevenshteinSimilarity a b = calculateLevenshteinSimilarity b a
      ∧ calculateJaroWinklerSimilarity a b = calculateJaroWinklerSimilarity b a
      ∧ calculateSubstringSimilarity a b = calculateSubstringSimilarity b a :=
  ⟨by unfold lexicalScore; exact textScoreOf_symm _ _,
    calculateLevenshteinSimilarity_symm a b,
    calculateJaroWinklerSimilarity_symm a b,
    calculateSubstringSimilarity_symm a b⟩

/-! ## C8: fallback escalation and provenance tags -/

/-- Concrete page parser for the C8 instances: no page yields a
record (as for a document whose pages carry no anchor matches). -/
def noAnchorPageParser : PageChunk → List TrademarkData := fun _ => []

/-- Concrete sectionizer: the document text forms a single section
(none of the section separators occur in the sample text). -/
def singleSectionSplit : String → List String := fun t => [t]

/-- Concrete field extractor for the C8 counterexample.  It extracts
the three required fields and even hands the constructor an
`extractionMethod` value of `"fallback-coarse"` — which the constructor
drops, like every call site tag. -/
def taggingExtractor : FieldExtractor := fun _ =>
  { nomorPermohonan := some "1234567890"
    namaReferensiLabelMerek := some "SUPERCOLA"
    kelasBarangJasa := some "25"
    extractionMethod := some "fallback-coarse" }

/-- Sample document text for the C8 counterexample. -/
def fallbackSampleText : String :=
  "JID 1234567890 Nama Referensi Label Merek: SUPERCOLA Tipe Merek: Merek Kata Kelas Barang/Jasa: 25"

/-- C8 counterexample: a document with zero page-based records is
re-run through the coarse pass and yields one record, but that record
does not carry `extractionMethod = "fallback-coarse"` — the
`TrademarkData` constructor defines no such property, so the access
yields `undefined` (`none`) even though the extractor passed the
tag in. -/
theorem fallback_record_not_tagged :
    (parseTrademarkDataEnhanced noAnchorPageParser singleSectionSplit taggingExtractor
        [{ content := fallbackSampleText, pageNumber := 1, hasTrademarkData := true }]
        fallbackSampleText).length = 1
    ∧ ((parseTrademarkDataEnhanced noAnchorPageParser singleSectionSplit taggingExtractor
        [{ content := fallbackSampleText, pageNumber := 1, hasTrademarkData := true }]
        fallbackSampleText).get ⟨0, by decide⟩).extractionMethod ≠ some "fallback-coarse" := by
  constructor
  · rfl
  · intro h
    exact Option.noConfusion h

/-- C8 (amended): when the page-based pass yields zero valid records
the whole document is re-run through exactly one traditional coarse
pass (the enhanced parser returns that single pass result as is), and
no record produced carries an `extractionMethod` tag — the property is
`undefined` (`none`) on every `TrademarkData`. -/
theorem parseTrademarkDataEnhanced_fallback
    (parsePageChunkFn : PageChunk → List TrademarkData)
    (splitSections : String → List String) (extractFields : FieldExtractor)
    (pageChunks : List PageChunk) (fullText : String)
    (hzero : (((pageChunks.filter (fun c => c.hasTrademarkData)).map
        parsePageChunkFn).flatten).filter isValidTrademark = []) :
    parseTrademarkDataEnhanced parsePageChunkFn splitSections extractFields
        pageChunks fullText
      = extractTrademarkData splitSections extractFields fullText
    ∧ ∀ r ∈ parseTrademarkDataEnhanced parsePageChunkFn splitSections extractFields
        pageChunks fullText,
        r.extractionMethod = none := by
  have hmain : parseTrademarkDataEnhanced parsePageChunkFn splitSections extractFields
      pageChunks fullText = extractTrademarkData splitSections extractFields fullText := by
    unfold parseTrademarkDataEnhanced
    rw [if_pos hzero]
  exact ⟨hmain, fun r _ => rfl⟩

/-- Field extractor used by the C8 witness. -/
def plainExtractor : FieldExtractor := fun _ =>
  { nomorPermohonan := some "9988776655"
    namaReferensiLabelMerek := some "MEGARASA"
    kelasBarangJasa := some "29" }

/-- Witness for C8 (amended): on a concrete document with an empty
page-based pass, the enhanced parser output equals one traditional
pass over the full text and carries no extraction-method tag. -/
theorem parseTrademarkDataEnhanced_fallback_witness :
    parseTrademarkDataEnhanced noAnchorPageParser singleSectionSplit plainExtractor []
        "Nama Pemohon: PT Mega Nama Referensi Label Merek: MEGARASA Kelas Barang/Jasa: 29"
      = extractTrademarkData singleSectionSplit plainExtractor
        "Nama Pemohon: PT Mega Nama Referensi Label Merek: MEGARASA Kelas Barang/Jasa: 29"
    ∧ ∀ r ∈ parseTrademarkDataEnhanced noAnchorPageParser singleSectionSplit plainExtractor []
        "Nama Pemohon: PT Mega Nama Referensi Label Merek: MEGARASA Kelas Barang/Jasa: 29",
        r.extractionMethod = none :=
  parseTrademarkDataEnhanced_fallback noAnchorPageParser singleSectionSplit plainExtractor []
    "Nama Pemohon: PT Mega Nama Referensi Label Merek: MEGARASA Kelas Barang/Jasa: 29"
    (by rfl)

end TrademarkAI
